import Mathlib

/-
Verification of the transaction-journey analysis engine of the
Approval-Ratio-Dashboard repository.

The TypeScript core is shallowly embedded: JS strings are Lean strings,
JS numbers used as counters are Nat, JS floating-point ratios are modeled
as exact rationals, insertion-ordered JS records are association lists or
key lists plus lookup functions, and JS Date values are an explicit
calendar structure with millisecond precision (a fixed UTC-like timezone,
no DST).  Every definition mirrors the corresponding source function.
-/

namespace Dashboard



/-- Model of the JS substring test used by String.prototype.includes:
seqContains hay needle is true iff needle occurs contiguously in hay. -/
def seqContains : List Char → List Char → Bool
  | [], needle => needle.isEmpty
  | c :: rest, needle => needle.isPrefixOf (c :: rest) || seqContains rest needle

/-- JS s.includes(sub). -/
def strContains (s sub : String) : Bool := seqContains s.data sub.data

/-- JS s.toLowerCase(), modeled characterwise. -/
def strLower (s : String) : String := ⟨s.data.map Char.toLower⟩

/-- Whitespace recognized by the model of String.prototype.trim. -/
def isJsSpace (c : Char) : Bool := c == ' ' || c == '\t' || c == '\n' || c == '\r'

/-- JS s.trim(). -/
def strTrim (s : String) : String :=
  ⟨((s.data.dropWhile isJsSpace).reverse.dropWhile isJsSpace).reverse⟩

/-- Status classification used everywhere in the analyzers:
status.toLowerCase().includes("approved") || ...includes("success"). -/
def isApproving (status : String) : Bool :=
  strContains (strLower status) "approved" || strContains (strLower status) "success"

/-- Declining-status classification:
lowercased status contains "declined", "fail" or "error". -/
def isDeclining (status : String) : Bool :=
  strContains (strLower status) "declined" || strContains (strLower status) "fail" ||
    strContains (strLower status) "error"

/-- The ubiquitous source idiom den > 0 ? (num / den) * 100 : 0. -/
def pct (num den : Nat) : ℚ := if 0 < den then ((num : ℚ) / (den : ℚ)) * 100 else 0

/-- Model of Number.parseFloat(x.toFixed(2)) and Number(x.toFixed(2)):
round to two decimal places. -/
def round2 (x : ℚ) : ℚ := ((round (x * 100) : ℤ) : ℚ) / 100

/-- The source idiom den > 0 ? round2 ((num / den) * 100) : 0. -/
def pct2 (num den : Nat) : ℚ := if 0 < den then round2 (((num : ℚ) / (den : ℚ)) * 100) else 0

/-- A computed ratio that lies between 0 and 100. -/
def ratioOk (x : ℚ) : Prop := 0 ≤ x ∧ x ≤ 100

/-- Generic model of the source pattern that walks a list and pushes a key
into an accumulator the first time a condition holds for it; used for
JS Set-based deduplication and for the declinedPSPs collection. -/
def foldCollect (key : α → String) (cond : α → Bool) (l : List α) : List String :=
  l.foldl (fun acc x => if cond x && !acc.contains (key x) then acc ++ [key x] else acc) []

/-- Model of the JS spread of a Set built from a list of strings:
deduplication preserving the first occurrence of each element. -/
def firstSeenDedup (l : List String) : List String :=
  foldCollect (fun x => x) (fun _ => true) l



/-- Model of a JS Date value: calendar day plus milliseconds within the day,
in an idealized fixed-offset timezone (no DST).  month is 1 to 12. -/
structure JSDate where
  year : Nat
  month : Nat
  day : Nat
  msOfDay : Nat
deriving DecidableEq

/-- Gregorian leap-year test. -/
def isLeapYear (y : Nat) : Bool := (y % 4 == 0 && y % 100 != 0) || y % 400 == 0

/-- Days before the first of the given month (1 to 12) within a year. -/
def daysBeforeMonth (m : Nat) (leap : Bool) : Nat :=
  [0, 31, 59, 90, 120, 151, 181, 212, 243, 273, 304, 334].getD (m - 1) 0 +
    (if leap && decide (2 < m) then 1 else 0)

/-- Zero-based day of year: whole days elapsed since January 1. -/
def dayOfYear0 (d : JSDate) : Nat :=
  daysBeforeMonth d.month (isLeapYear d.year) + (d.day - 1)

/-- Days in the proleptic Gregorian calendar strictly before January 1 of
the given year, counted from January 1 of year 1. -/
def daysBeforeYear (y : Nat) : Nat :=
  365 * (y - 1) + (y - 1) / 4 - (y - 1) / 100 + (y - 1) / 400

/-- Model of Date.prototype.getTime, as milliseconds since January 1 of
year 1 (the fixed epoch offset is irrelevant to every difference taken). -/
def JSDate.getTime (d : JSDate) : Nat :=
  (daysBeforeYear d.year + dayOfYear0 d) * 86400000 + d.msOfDay

/-- Model of Date.prototype.getDay: 0 = Sunday; January 1 of year 1 of the
proleptic Gregorian calendar is a Monday. -/
def JSDate.getDay (d : JSDate) : Nat :=
  (1 + daysBeforeYear d.year + dayOfYear0 d) % 7

/-- JS String(n).padStart(2, "0"). -/
def pad2 (n : Nat) : String := if n < 10 then "0" ++ toString n else toString n

/-- Four-digit year as printed by Date.prototype.toISOString. -/
def pad4 (n : Nat) : String :=
  if n < 10 then "000" ++ toString n
  else if n < 100 then "00" ++ toString n
  else if n < 1000 then "0" ++ toString n
  else toString n

/-- One raw transaction row.  Empty strings model absent (falsy) fields;
processing_date is none when the field is absent or unparseable, and
some d when it carries (or parses to) a valid date. -/
structure Transaction where
  transactionId : String
  merchantOrderId : String
  pspName : String
  country : String
  status : String
  processing_date : Option JSDate
  merchantAmount : Option ℚ
  currency : String
deriving DecidableEq

/-- The journey key: tx.merchantOrderId || tx.transactionId || "unknown". -/
def orderKey (tx : Transaction) : String :=
  if tx.merchantOrderId ≠ "" then tx.merchantOrderId
  else if tx.transactionId ≠ "" then tx.transactionId
  else "unknown"

/-- (tx.pspName || "Unknown").trim() -/
def attemptPsp (tx : Transaction) : String :=
  strTrim (if tx.pspName = "" then "Unknown" else tx.pspName)

/-- (tx.country || "Unknown").trim() -/
def attemptCountry (tx : Transaction) : String :=
  strTrim (if tx.country = "" then "Unknown" else tx.country)

/-- tx.status || "unknown" -/
def attemptStatus (tx : Transaction) : String :=
  if tx.status = "" then "unknown" else tx.status

/-- The improved analyzer date default: the parsed processing date, or the
current time (Date.now()) when absent. -/
def txDate (now : JSDate) (tx : Transaction) : JSDate :=
  tx.processing_date.getD now

/-- One attempt within a journey of the improved analyzer. -/
structure Attempt where
  pspName : String
  status : String
  timestamp : Option JSDate
  amount : Option ℚ
  currency : String
  position : Nat
deriving DecidableEq

/-- A transaction journey of the improved analyzer. -/
structure Journey where
  transactionId : String
  merchantOrderId : String
  country : String
  attempts : List Attempt
  finalStatus : String
  totalAttempts : Nat
  pspsInvolved : List String
  approvedBy : Option String
  date : JSDate
deriving DecidableEq

/-- The journey record created on first sight of an order key. -/
def newJourney (now : JSDate) (tx : Transaction) (oid : String) : Journey :=
  { transactionId := if tx.transactionId ≠ "" then tx.transactionId else oid
    merchantOrderId := oid
    country := attemptCountry tx
    attempts := []
    finalStatus := "failed"
    totalAttempts := 0
    pspsInvolved := []
    approvedBy := none
    date := txDate now tx }

/-- The attempt pushed for one transaction row in the improved analyzer. -/
def txAttempt (now : JSDate) (tx : Transaction) : Attempt :=
  { pspName := attemptPsp tx
    status := attemptStatus tx
    timestamp := some (txDate now tx)
    amount := tx.merchantAmount
    currency := tx.currency
    position := 0 }

/-- Insertion-ordered record update: push an attempt onto the journey for
this key, creating the journey entry on first sight. -/
def addToJourneys (m : List (String × Journey)) (oid : String) (fresh : Journey)
    (att : Attempt) : List (String × Journey) :=
  match m with
  | [] => [(oid, { fresh with attempts := [att] })]
  | (k, j) :: rest =>
      if k = oid then (k, { j with attempts := j.attempts ++ [att] }) :: rest
      else (k, j) :: addToJourneys rest oid fresh att

/-- First pass of improvedAnalyzeData: group rows by order key. -/
def groupJourneys (now : JSDate) (txs : List Transaction) : List (String × Journey) :=
  txs.foldl
    (fun m tx => addToJourneys m (orderKey tx) (newJourney now tx (orderKey tx)) (txAttempt now tx)) []

/-- The sort comparator (a, b) => timestamps missing sort last, otherwise
a.timestamp.getTime() - b.timestamp.getTime(). -/
def tsCmp (a b : Option JSDate) : Int :=
  match a with
  | none => 1
  | some ta =>
    match b with
    | none => -1
    | some tb => (ta.getTime : Int) - (tb.getTime : Int)

/-- Stable sort of attempts by the source comparator (JS Array.sort is
stable). -/
def sortAttempts (atts : List Attempt) : List Attempt :=
  List.insertionSort (fun a b => tsCmp a.timestamp b.timestamp ≤ 0) atts

/-- The attempt list of a processed journey: sorted when any attempt has a
timestamp, with 1-based positions assigned in order. -/
def positionedAttempts (j : Journey) : List Attempt :=
  ((if j.attempts.any (fun a => a.timestamp.isSome) then sortAttempts j.attempts
    else j.attempts).enum).map (fun p => { p.2 with position := p.1 + 1 })

/-- Second pass of improvedAnalyzeData for one journey: sort attempts when
any has a timestamp, assign 1-based positions, compute totals, the involved
PSP set, the final status and the approving PSP. -/
def processJourney (j : Journey) : Journey :=
  match (positionedAttempts j).find? (fun a => isApproving a.status) with
  | some a =>
      { j with attempts := positionedAttempts j
               totalAttempts := (positionedAttempts j).length
               pspsInvolved := firstSeenDedup ((positionedAttempts j).map (fun a => a.pspName))
               finalStatus := "success"
               approvedBy := some a.pspName }
  | none =>
      { j with attempts := positionedAttempts j
               totalAttempts := (positionedAttempts j).length
               pspsInvolved := firstSeenDedup ((positionedAttempts j).map (fun a => a.pspName))
               finalStatus := "failed"
               approvedBy := none }

/-- The fully built journey record of improvedAnalyzeData. -/
def improvedJourneys (now : JSDate) (txs : List Transaction) : List (String × Journey) :=
  (groupJourneys now txs).map (fun kj => (kj.1, processJourney kj.2))

/-- Object.values of the journey record. -/
def journeyArray (now : JSDate) (txs : List Transaction) : List Journey :=
  (improvedJourneys now txs).map (fun kj => kj.2)

/-- Does this attempt belong to PSP p and approve. -/
def attemptApproves (p : String) (a : Attempt) : Bool :=
  a.pspName == p && isApproving a.status

/-- Is PSP p involved in journey j (membership in the per-journey PSP set
built from the attempts). -/
def journeyInvolves (j : Journey) (p : String) : Bool :=
  j.attempts.any (fun a => a.pspName == p)

/-- Did PSP p approve journey j: some attempt by p has approving status. -/
def pspApprovedJourney (j : Journey) (p : String) : Bool :=
  j.attempts.any (attemptApproves p)

/-- The keys of the pspStats record: every PSP name appearing on any
attempt, in first-seen order. -/
def pspKeys (js : List Journey) : List String :=
  firstSeenDedup ((js.map (fun j => j.attempts.map (fun a => a.pspName))).flatten)

/-- All attempt rows across all journeys. -/
def allAttempts (js : List Journey) : List Attempt :=
  (js.map (fun j => j.attempts)).flatten

/-- Per-PSP statistics of the improved analyzer. -/
structure PSPStats where
  totalAttempts : Nat
  approvedAttempts : Nat
  declinedAttempts : Nat
  uniqueApproved : Nat
  uniqueDeclined : Nat
  individualApprovalRate : ℚ
  trueApprovalRate : ℚ
  avgPosition : ℚ

/-- The pspStats entry for one PSP, as accumulated by the three loops of
improvedAnalyzeData: attempt-level counters, journey-unique counters,
average position and the two rates. -/
def mkPSPStats (js : List Journey) (p : String) : PSPStats :=
  let atts := allAttempts js
  let totalAttempts := atts.countP (fun a => a.pspName == p)
  let approvedAttempts := atts.countP (fun a => a.pspName == p && isApproving a.status)
  let declinedAttempts :=
    atts.countP (fun a => a.pspName == p && !isApproving a.status && isDeclining a.status)
  let uniqueApproved := js.countP (fun j => journeyInvolves j p && pspApprovedJourney j p)
  let uniqueDeclined := js.countP (fun j => journeyInvolves j p && !pspApprovedJourney j p)
  let positions := atts.filterMap (fun a => if a.pspName == p then some a.position else none)
  { totalAttempts := totalAttempts
    approvedAttempts := approvedAttempts
    declinedAttempts := declinedAttempts
    uniqueApproved := uniqueApproved
    uniqueDeclined := uniqueDeclined
    individualApprovalRate := pct approvedAttempts totalAttempts
    trueApprovalRate := pct uniqueApproved (uniqueApproved + uniqueDeclined)
    avgPosition :=
      if 0 < positions.length then (positions.sum : ℚ) / (positions.length : ℚ) else 0 }

/-- Per-PSP entry of a country breakdown. -/
structure CountryPSPStats where
  approvedTransactions : Nat
  declinedTransactions : Nat
  totalTransactions : Nat
  successRate : ℚ

/-- Per-country breakdown of the improved analyzer. -/
structure CountryBreakdown where
  totalApprovedTransactions : Nat
  totalUniqueDeclinedTransactions : Nat
  totalProcessedTransactions : Nat
  successRate : ℚ
  countryPSPs : List String
  pspBreakdown : String → CountryPSPStats

/-- The per-country per-PSP stats: journeys of the country involving the
PSP, split by whether this PSP approved the journey. -/
def mkCountryPSPStats (journeys : List Journey) (p : String) : CountryPSPStats :=
  let pspJourneys := journeys.filter (fun j => j.pspsInvolved.contains p)
  let approved := pspJourneys.countP (fun j => pspApprovedJourney j p)
  let declined := pspJourneys.countP (fun j => !pspApprovedJourney j p)
  let total := approved + declined
  { approvedTransactions := approved
    declinedTransactions := declined
    totalTransactions := total
    successRate := pct approved total }

/-- The countryBreakdown entry for one country. -/
def mkCountryBreakdown (js : List Journey) (c : String) : CountryBreakdown :=
  let journeys := js.filter (fun j => j.country == c)
  let totalApproved := journeys.countP (fun j => j.finalStatus == "success")
  let totalDeclined := journeys.countP (fun j => j.finalStatus == "failed")
  let totalProcessed := totalApproved + totalDeclined
  { totalApprovedTransactions := totalApproved
    totalUniqueDeclinedTransactions := totalDeclined
    totalProcessedTransactions := totalProcessed
    successRate := pct totalApproved totalProcessed
    countryPSPs := firstSeenDedup ((journeys.map (fun j => j.pspsInvolved)).flatten)
    pspBreakdown := fun p => mkCountryPSPStats journeys p }

/-- The keys of the countryBreakdown record, in first-seen journey order. -/
def countryKeys (js : List Journey) : List String :=
  firstSeenDedup (js.map (fun j => j.country))

/-- The four aggregate totals shared by pspLevelMetrics,
transactionLevelMetrics and the exclusion recalculation. -/
structure LevelTotals where
  totalApprovedTransactions : Nat
  totalUniqueDeclinedTransactions : Nat
  totalProcessedTransactions : Nat
  weightedSuccessRate : ℚ

/-- The full result of improvedAnalyzeData.  Records are modeled as a key
list (insertion order) together with a lookup function. -/
structure ImprovedAnalysisResults where
  transactionJourneys : List (String × Journey)
  pspNames : List String
  pspStats : String → PSPStats
  pspLevelMetrics : LevelTotals
  countryNames : List String
  countryBreakdown : String → CountryBreakdown
  transactionLevelMetrics : LevelTotals

/-- Model of improvedAnalyzeData.  now stands for Date.now(), used only as
the default date of rows without a processing date. -/
def improvedAnalyzeData (now : JSDate) (txs : List Transaction) : ImprovedAnalysisResults :=
  let tj := improvedJourneys now txs
  let js := tj.map (fun kj => kj.2)
  let keys := pspKeys js
  let stats := fun p => mkPSPStats js p
  let totalApproved := (keys.map (fun p => (stats p).uniqueApproved)).sum
  let totalDeclined := (keys.map (fun p => (stats p).uniqueDeclined)).sum
  let totalProcessed := totalApproved + totalDeclined
  let cKeys := countryKeys js
  let cb := fun c => mkCountryBreakdown js c
  let tlApproved := (cKeys.map (fun c => (cb c).totalApprovedTransactions)).sum
  let tlDeclined := (cKeys.map (fun c => (cb c).totalUniqueDeclinedTransactions)).sum
  let tlProcessed := tlApproved + tlDeclined
  { transactionJourneys := tj
    pspNames := keys
    pspStats := stats
    pspLevelMetrics :=
      { totalApprovedTransactions := totalApproved
        totalUniqueDeclinedTransactions := totalDeclined
        totalProcessedTransactions := totalProcessed
        weightedSuccessRate := pct totalApproved totalProcessed }
    countryNames := cKeys
    countryBreakdown := cb
    transactionLevelMetrics :=
      { totalApprovedTransactions := tlApproved
        totalUniqueDeclinedTransactions := tlDeclined
        totalProcessedTransactions := tlProcessed
        weightedSuccessRate := pct tlApproved tlProcessed } }

/-- Keep a journey iff some involved PSP is not excluded. -/
def hasNonExcludedPSP (excluded : List String) (j : Journey) : Bool :=
  j.pspsInvolved.any (fun p => !excluded.contains p)

/-- Some non-excluded attempt of the journey approves. -/
def approvedByNonExcluded (excluded : List String) (j : Journey) : Bool :=
  j.attempts.any (fun a => !excluded.contains a.pspName && isApproving a.status)

/-- Some attempt of the journey belongs to a non-excluded PSP. -/
def nonExcludedInvolved (excluded : List String) (j : Journey) : Bool :=
  j.attempts.any (fun a => !excluded.contains a.pspName)

/-- Model of recalculateWithPSPExclusions: with no exclusions, return the
baseline transaction-level totals verbatim; otherwise drop journeys that
involve only excluded PSPs and re-derive the outcome of the rest from
their non-excluded attempts. -/
def recalculateWithPSPExclusions (results : ImprovedAnalysisResults)
    (excludedPSPs : List String) : LevelTotals :=
  if excludedPSPs.length = 0 then
    { totalApprovedTransactions := results.transactionLevelMetrics.totalApprovedTransactions
      totalUniqueDeclinedTransactions :=
        results.transactionLevelMetrics.totalUniqueDeclinedTransactions
      totalProcessedTransactions := results.transactionLevelMetrics.totalProcessedTransactions
      weightedSuccessRate := results.transactionLevelMetrics.weightedSuccessRate }
  else
    let filteredJourneys :=
      (results.transactionJourneys.map (fun kj => kj.2)).filter (hasNonExcludedPSP excludedPSPs)
    let totalApproved := filteredJourneys.countP (approvedByNonExcluded excludedPSPs)
    let totalDeclined := filteredJourneys.countP
      (fun j => !approvedByNonExcluded excludedPSPs j && nonExcludedInvolved excludedPSPs j)
    let totalProcessed := totalApproved + totalDeclined
    { totalApprovedTransactions := totalApproved
      totalUniqueDeclinedTransactions := totalDeclined
      totalProcessedTransactions := totalProcessed
      weightedSuccessRate := pct totalApproved totalProcessed }

/-- One attempt within a journey of analyzeData (no position field). -/
structure AAttempt where
  pspName : String
  status : String
  timestamp : Option JSDate
  amount : Option ℚ
  currency : String
deriving DecidableEq

/-- A journey of analyzeData. -/
structure AJourney where
  merchantOrderId : String
  country : String
  attempts : List AAttempt
  finalStatus : String
  totalAttempts : Nat
  pspsInvolved : List String
deriving DecidableEq

/-- The attempt pushed for one row in analyzeData: the timestamp exists
only when the row carries an already-parsed date. -/
def aTxAttempt (tx : Transaction) : AAttempt :=
  { pspName := attemptPsp tx
    status := attemptStatus tx
    timestamp := tx.processing_date
    amount := tx.merchantAmount
    currency := tx.currency }

/-- The journey record created on first sight of an order key. -/
def aNewJourney (tx : Transaction) (oid : String) : AJourney :=
  { merchantOrderId := oid
    country := attemptCountry tx
    attempts := []
    finalStatus := "failed"
    totalAttempts := 0
    pspsInvolved := [] }

/-- Insertion-ordered grouping for analyzeData. -/
def aAddToJourneys (m : List (String × AJourney)) (oid : String) (fresh : AJourney)
    (att : AAttempt) : List (String × AJourney) :=
  match m with
  | [] => [(oid, { fresh with attempts := [att] })]
  | (k, j) :: rest =>
      if k = oid then (k, { j with attempts := j.attempts ++ [att] }) :: rest
      else (k, j) :: aAddToJourneys rest oid fresh att

/-- First pass of analyzeData. -/
def aGroupJourneys (txs : List Transaction) : List (String × AJourney) :=
  txs.foldl (fun m tx => aAddToJourneys m (orderKey tx) (aNewJourney tx (orderKey tx)) (aTxAttempt tx)) []

/-- Stable sort of analyzeData attempts by the shared comparator. -/
def aSortAttempts (atts : List AAttempt) : List AAttempt :=
  List.insertionSort (fun a b => tsCmp a.timestamp b.timestamp ≤ 0) atts

/-- The attempt list of a processed analyzeData journey. -/
def aSortedAttempts (j : AJourney) : List AAttempt :=
  if j.attempts.any (fun a => a.timestamp.isSome) then aSortAttempts j.attempts else j.attempts

/-- Second pass of analyzeData for one journey. -/
def aProcessJourney (j : AJourney) : AJourney :=
  { j with attempts := aSortedAttempts j
           totalAttempts := (aSortedAttempts j).length
           pspsInvolved := firstSeenDedup ((aSortedAttempts j).map (fun a => a.pspName))
           finalStatus :=
             if (aSortedAttempts j).any (fun a => isApproving a.status) then "success"
             else "failed" }

/-- The journey array of analyzeData. -/
def aJourneys (txs : List Transaction) : List AJourney :=
  (aGroupJourneys txs).map (fun kj => aProcessJourney kj.2)

/-- Is PSP p involved in an analyzeData journey. -/
def aJourneyInvolves (j : AJourney) (p : String) : Bool :=
  j.attempts.any (fun a => a.pspName == p)

/-- Did PSP p approve an analyzeData journey. -/
def aPspApprovedJourney (j : AJourney) (p : String) : Bool :=
  j.attempts.any (fun a => a.pspName == p && isApproving a.status)

/-- The stats record shape of analyzeData (PSPStats of the type file);
filtered and other are never incremented by analyzeData. -/
structure RatioStats where
  total : Nat
  approved : Nat
  declined : Nat
  filtered : Nat
  other : Nat
  approvalRatio : ℚ
  declineRatio : ℚ

/-- The pspAnalysis entry for one PSP: journeys counted once per involved
PSP, ratios over approved + declined with the toFixed(2) rounding. -/
def mkPspRatioStats (js : List AJourney) (p : String) : RatioStats :=
  let total := js.countP (fun j => aJourneyInvolves j p)
  let approved := js.countP (fun j => aJourneyInvolves j p && aPspApprovedJourney j p)
  let declined := js.countP (fun j => aJourneyInvolves j p && !aPspApprovedJourney j p)
  { total := total
    approved := approved
    declined := declined
    filtered := 0
    other := 0
    approvalRatio := pct2 approved (approved + declined)
    declineRatio := pct2 declined (approved + declined) }

/-- The country-level stats of analyzeData, with the nested PSP breakdown
scoped to the journeys of the country. -/
structure ACountryStats where
  total : Nat
  approved : Nat
  declined : Nat
  filtered : Nat
  other : Nat
  approvalRatio : ℚ
  declineRatio : ℚ
  pspNames : List String
  pspBreakdown : String → RatioStats

/-- The countryAnalysis entry for one country. -/
def mkACountryStats (js : List AJourney) (c : String) : ACountryStats :=
  let journeys := js.filter (fun j => j.country == c)
  let approved := journeys.countP (fun j => j.finalStatus == "success")
  let declined := journeys.countP (fun j => !(j.finalStatus == "success"))
  { total := journeys.length
    approved := approved
    declined := declined
    filtered := 0
    other := 0
    approvalRatio := pct2 approved (approved + declined)
    declineRatio := pct2 declined (approved + declined)
    pspNames := firstSeenDedup ((journeys.map (fun j => j.pspsInvolved)).flatten)
    pspBreakdown := fun p => mkPspRatioStats journeys p }

/-- The keys of the countryAnalysis record. -/
def countryKeysA (js : List AJourney) : List String :=
  firstSeenDedup (js.map (fun j => j.country))

/-- A cross-PSP flow record as pushed by analyzeData. -/
structure ACrossPSPFlow where
  merchantOrderId : String
  approvedBy : String
  declinedBy : List String
  country : String
  amount : Option ℚ
  currency : String
deriving DecidableEq

/-- The cross-PSP flow extraction for one journey: only successful
journeys spanning more than one PSP are considered; the approving PSP is
that of the first approving attempt; declinedBy collects, at most once
each, every other PSP owning an attempt whose status matches the declining
substrings; no flow is pushed when that list is empty. -/
def journeyFlow (j : AJourney) : Option ACrossPSPFlow :=
  if 1 < j.pspsInvolved.length && j.finalStatus == "success" then
    match j.attempts.find? (fun a => isApproving a.status) with
    | some approvedAttempt =>
        let declinedPSPs := foldCollect (fun a => a.pspName)
          (fun a => a.pspName != approvedAttempt.pspName && isDeclining a.status) j.attempts
        if 0 < declinedPSPs.length then
          some { merchantOrderId := j.merchantOrderId
                 approvedBy := approvedAttempt.pspName
                 declinedBy := declinedPSPs
                 country := j.country
                 amount := approvedAttempt.amount
                 currency := approvedAttempt.currency }
        else none
    | none => none
  else none

/-- The result of analyzeData (the parts with algorithmic content). -/
structure AnalysisResults where
  pspNames : List String
  pspAnalysis : String → RatioStats
  countryNames : List String
  countryAnalysis : String → ACountryStats
  totalTransactions : Nat
  overallApprovalRate : ℚ
  crossPSPFlows : List ACrossPSPFlow

/-- Model of analyzeData. -/
def analyzeData (txs : List Transaction) : AnalysisResults :=
  let js := aJourneys txs
  let keys := firstSeenDedup ((js.map (fun j => j.pspsInvolved)).flatten)
  let pspStats := fun p => mkPspRatioStats js p
  let totalApproved := (keys.map (fun p => (pspStats p).approved)).sum
  let totalDeclined := (keys.map (fun p => (pspStats p).declined)).sum
  { pspNames := keys
    pspAnalysis := pspStats
    countryNames := countryKeysA js
    countryAnalysis := fun c => mkACountryStats js c
    totalTransactions := txs.length
    overallApprovalRate := pct2 totalApproved (totalApproved + totalDeclined)
    crossPSPFlows := js.filterMap journeyFlow }

/-- A journey of analyzeTimeData: analyzeData journeys plus the
representative date (the parsed date of the first row seen). -/
structure TJourney where
  merchantOrderId : String
  country : String
  attempts : List AAttempt
  finalStatus : String
  totalAttempts : Nat
  pspsInvolved : List String
  date : JSDate
deriving DecidableEq

/-- Journey created on first sight of a key in analyzeTimeData. -/
def tNewJourney (tx : Transaction) (oid : String) (d : JSDate) : TJourney :=
  { merchantOrderId := oid
    country := attemptCountry tx
    attempts := []
    finalStatus := "failed"
    totalAttempts := 0
    pspsInvolved := []
    date := d }

/-- Insertion-ordered grouping for analyzeTimeData. -/
def tAddToJourneys (m : List (String × TJourney)) (oid : String) (fresh : TJourney)
    (att : AAttempt) : List (String × TJourney) :=
  match m with
  | [] => [(oid, { fresh with attempts := [att] })]
  | (k, j) :: rest =>
      if k = oid then (k, { j with attempts := j.attempts ++ [att] }) :: rest
      else (k, j) :: tAddToJourneys rest oid fresh att

/-- The attempt pushed in analyzeTimeData: the timestamp is always the
parsed date of the row. -/
def tTxAttempt (tx : Transaction) (d : JSDate) : AAttempt :=
  { pspName := attemptPsp tx
    status := attemptStatus tx
    timestamp := some d
    amount := tx.merchantAmount
    currency := tx.currency }

/-- First pass of analyzeTimeData over the rows with a valid date. -/
def tGroupJourneys (txs : List Transaction) : List (String × TJourney) :=
  txs.foldl
    (fun m tx =>
      match tx.processing_date with
      | some d => tAddToJourneys m (orderKey tx) (tNewJourney tx (orderKey tx) d) (tTxAttempt tx d)
      | none => m) []

/-- The attempt list of a processed analyzeTimeData journey: sorted
unconditionally. -/
def tSortedAttempts (j : TJourney) : List AAttempt :=
  List.insertionSort (fun a b => tsCmp a.timestamp b.timestamp ≤ 0) j.attempts

/-- Second pass of analyzeTimeData for one journey: sort unconditionally,
then derive totals, PSP set and final status. -/
def tProcessJourney (j : TJourney) : TJourney :=
  { j with attempts := tSortedAttempts j
           totalAttempts := (tSortedAttempts j).length
           pspsInvolved := firstSeenDedup ((tSortedAttempts j).map (fun a => a.pspName))
           finalStatus :=
             if (tSortedAttempts j).any (fun a => isApproving a.status) then "success"
             else "failed" }

/-- The journey array of analyzeTimeData. -/
def tJourneys (txs : List Transaction) : List TJourney :=
  (tGroupJourneys txs).map (fun kj => tProcessJourney kj.2)

/-- Daily bucket key: date.toISOString().split("T")[0]. -/
def dayKey (d : JSDate) : String :=
  let y := pad4 d.year
  let m := pad2 d.month
  let dd := pad2 d.day
  s!"{y}-{m}-{dd}"

/-- Model of getISOWeek of the time analyzer: the year of the date, and
Math.ceil((days + start.getDay() + 1) / 7) where days is the whole number
of days from January 1 of that year to the date and start is January 1. -/
def getISOWeek (date : JSDate) : String :=
  let year := date.year
  let start : JSDate := { year := year, month := 1, day := 1, msOfDay := 0 }
  let days := (date.getTime - start.getTime) / 86400000
  let week := (days + start.getDay + 1 + 6) / 7
  let yearStr := toString year
  let ww := pad2 week
  s!"{yearStr}-W{ww}"

/-- Monthly bucket key: getFullYear() + "-" + padded (getMonth() + 1). -/
def monthKey (d : JSDate) : String :=
  let y := toString d.year
  let m := pad2 d.month
  s!"{y}-{m}"

/-- The unique-counting metrics of one time bucket. -/
structure TimeMetrics where
  total : Nat
  approved : Nat
  declined : Nat
  approvalRate : ℚ

/-- calculateUniqueMetrics of the time analyzer: journeys that succeeded
vs journeys that failed, and the rounded approval rate. -/
def calculateUniqueMetrics (journeys : List TJourney) : TimeMetrics :=
  let approved := journeys.countP (fun j => j.finalStatus == "success")
  let declined := journeys.countP (fun j => j.finalStatus == "failed")
  let total := approved + declined
  { total := total
    approved := approved
    declined := declined
    approvalRate := round2 (pct approved total) }

/-- Per-PSP entry of a daily bucket. -/
structure DailyPSPStats where
  total : Nat
  approved : Nat
  declined : Nat
  approvalRatio : ℚ

/-- The per-PSP breakdown of processTimeGroupWithPSPs for one PSP. -/
def mkDailyPSPStats (journeys : List TJourney) (p : String) : DailyPSPStats :=
  let pspJourneys := journeys.filter (fun j => j.pspsInvolved.contains p)
  let approved := pspJourneys.countP
    (fun j => j.attempts.any (fun a => a.pspName == p && isApproving a.status))
  let declined := pspJourneys.countP
    (fun j => !j.attempts.any (fun a => a.pspName == p && isApproving a.status))
  let total := approved + declined
  { total := total
    approved := approved
    declined := declined
    approvalRatio := round2 (pct approved total) }

/-- One daily bucket. -/
structure DailyEntry where
  date : String
  total : Nat
  approved : Nat
  declined : Nat
  approvalRate : ℚ
  pspNames : List String
  pspBreakdown : String → DailyPSPStats

/-- processTimeGroupWithPSPs for one daily bucket. -/
def processTimeGroupWithPSPs (dk : String) (journeys : List TJourney) : DailyEntry :=
  let base := calculateUniqueMetrics journeys
  { date := dk
    total := base.total
    approved := base.approved
    declined := base.declined
    approvalRate := base.approvalRate
    pspNames := firstSeenDedup ((journeys.map (fun j => j.pspsInvolved)).flatten)
    pspBreakdown := fun p => mkDailyPSPStats journeys p }

/-- One weekly or monthly bucket. -/
structure PeriodEntry where
  period : String
  total : Nat
  approved : Nat
  declined : Nat
  approvalRate : ℚ
deriving DecidableEq

/-- The time analysis result.  The lexicographic sort of the bucket lists
(a presentation step) is not modeled; bucket keys appear in first-seen
order and no claim depends on their order. -/
structure TimeAnalysis where
  daily : List DailyEntry
  weekly : List PeriodEntry
  monthly : List PeriodEntry

/-- The daily buckets of analyzeTimeData, keyed in first-seen order. -/
def tDailyEntries (txs : List Transaction) : List DailyEntry :=
  (firstSeenDedup ((tJourneys txs).map (fun j => dayKey j.date))).map
    (fun k => processTimeGroupWithPSPs k ((tJourneys txs).filter (fun j => dayKey j.date == k)))

/-- The weekly buckets of analyzeTimeData. -/
def tWeeklyEntries (txs : List Transaction) : List PeriodEntry :=
  (firstSeenDedup ((tJourneys txs).map (fun j => getISOWeek j.date))).map
    (fun k =>
      let m := calculateUniqueMetrics ((tJourneys txs).filter (fun j => getISOWeek j.date == k))
      { period := k, total := m.total, approved := m.approved, declined := m.declined,
        approvalRate := m.approvalRate })

/-- The monthly buckets of analyzeTimeData. -/
def tMonthlyEntries (txs : List Transaction) : List PeriodEntry :=
  (firstSeenDedup ((tJourneys txs).map (fun j => monthKey j.date))).map
    (fun k =>
      let m := calculateUniqueMetrics ((tJourneys txs).filter (fun j => monthKey j.date == k))
      { period := k, total := m.total, approved := m.approved, declined := m.declined,
        approvalRate := m.approvalRate })

/-- Model of analyzeTimeData: group the journeys by daily, weekly and
monthly bucket keys of their date and aggregate each bucket. -/
def analyzeTimeData (txs : List Transaction) : TimeAnalysis :=
  if (txs.filter (fun tx => tx.processing_date.isSome)).isEmpty then
    { daily := [], weekly := [], monthly := [] }
  else
    { daily := tDailyEntries txs
      weekly := tWeeklyEntries txs
      monthly := tMonthlyEntries txs }







/-- Weekday of January 1 of the given year, as Date.prototype.getDay
returns it (0 = Sunday). -/
def jan1Weekday (y : Nat) : Nat :=
  JSDate.getDay { year := y, month := 1, day := 1, msOfDay := 0 }

/-- Math.ceil(x / 7) for a natural x. -/
def ceilDiv7 (x : Nat) : Nat := (x + 6) / 7

/-- The 1-based ordinal day of the year (January 1 is day 1), the standard
reading of "day of the year". -/
def dayOfYear1 (d : JSDate) : Nat := dayOfYear0 d + 1

/-- The weekly bucket key exactly as the specification sentence describes
it, reading dayOfYear as the standard 1-based ordinal day of the year:
"YYYY-Www" with ww = ceil((dayOfYear + Jan1Weekday + 1) / 7). -/
def specWeekKey (d : JSDate) : String :=
  let y := toString d.year
  let ww := pad2 (ceilDiv7 (dayOfYear1 d + jan1Weekday d.year + 1))
  s!"{y}-W{ww}"

/-- The week formula actually computed by getISOWeek, phrased in calendar
terms: as specWeekKey but with the 0-based day offset (whole days elapsed
since January 1) in place of the 1-based ordinal day. -/
def amendedWeekKey (d : JSDate) : String :=
  let y := toString d.year
  let ww := pad2 (ceilDiv7 (dayOfYear0 d + jan1Weekday d.year + 1))
  s!"{y}-W{ww}"

/-- A fixed stand-in for Date.now() in concrete evaluations. -/
def exDate : JSDate := { year := 2024, month := 1, day := 1, msOfDay := 0 }

/-- The declined attempt by A of the worked example. -/
def exAttemptA : AAttempt :=
  { pspName := "A", status := "declined", timestamp := none, amount := none, currency := "" }

/-- The approving attempt by B of the worked example. -/
def exAttemptB : AAttempt :=
  { pspName := "B", status := "approved", timestamp := none, amount := none, currency := "" }

/-- The positioned attempt of order 2 of the worked example. -/
def exAttempt2 : Attempt :=
  { pspName := "A", status := "approved", timestamp := some exDate,
    amount := none, currency := "", position := 1 }

/-- The improved-analyzer journey built for order 2 of the worked
example: a single approved attempt by A. -/
def exJourney2 : Journey :=
  { transactionId := "2", merchantOrderId := "2", country := "DE",
    attempts := [exAttempt2],
    finalStatus := "success", totalAttempts := 1, pspsInvolved := ["A"],
    approvedBy := some "A", date := exDate }

/-- The analyzeData journey built for order 1 of the worked example. -/
def exAJourney : AJourney :=
  { merchantOrderId := "1", country := "DE", attempts := [exAttemptA, exAttemptB],
    finalStatus := "success", totalAttempts := 2, pspsInvolved := ["A", "B"] }

/-- A concrete undated transaction row. -/
def exTx (oid psp st : String) : Transaction :=
  { transactionId := "", merchantOrderId := oid, pspName := psp, country := "DE",
    status := st, processing_date := none, merchantAmount := none, currency := "" }

/-- The worked example of the specification: order 1 declined by A then
approved by B, order 2 approved by A. -/
def exTxs : List Transaction := [exTx "1" "A" "declined", exTx "1" "B" "approved", exTx "2" "A" "approved"]

/-- Order 1 with a pending (neither approving nor declining) attempt by A
and an approval by B. -/
def exPendingTxs : List Transaction := [exTx "1" "A" "pending", exTx "1" "B" "approved"]

/-- A single attempt whose status matches no outcome substring. -/
def exInProcessTxs : List Transaction := [exTx "1" "A" "in_process"]

/-- A single dated approved transaction. -/
def exDatedTxs : List Transaction :=
  [{ exTx "1" "A" "approved" with
      processing_date := some { year := 2024, month := 3, day := 5, msOfDay := 7200000 } }]

theorem round_mono_of_le {x y : ℚ} (h : x ≤ y) : round x ≤ round y := by
  rw [round_eq, round_eq]
  exact Int.floor_mono (by linarith)

theorem round2_nonneg {x : ℚ} (h : 0 ≤ x) : 0 ≤ round2 x := by
  unfold round2
  have h0 : round ((0 : ℚ)) ≤ round (x * 100) := round_mono_of_le (by nlinarith)
  rw [round_zero] at h0
  have : (0 : ℚ) ≤ ((round (x * 100) : ℤ) : ℚ) := by exact_mod_cast h0
  positivity

theorem round2_le_100 {x : ℚ} (h : x ≤ 100) : round2 x ≤ 100 := by
  unfold round2
  have h0 : round (x * 100) ≤ round ((10000 : ℚ)) := round_mono_of_le (by nlinarith)
  have h1 : round ((10000 : ℚ)) = (10000 : ℤ) := by
    norm_num [round_eq]
  rw [h1] at h0
  have h2 : ((round (x * 100) : ℤ) : ℚ) ≤ (10000 : ℚ) := by exact_mod_cast h0
  linarith

theorem round2_zero : round2 0 = 0 := by
  unfold round2
  norm_num

theorem pct_nonneg (a b : Nat) : 0 ≤ pct a b := by
  unfold pct
  split
  · positivity
  · exact le_refl 0

theorem pct_le_100 {a b : Nat} (h : a ≤ b) : pct a b ≤ 100 := by
  unfold pct
  split
  · rename_i hb
    have hb' : (0 : ℚ) < (b : ℚ) := by exact_mod_cast hb
    rw [div_mul_eq_mul_div, div_le_iff₀ hb']
    have : (a : ℚ) ≤ (b : ℚ) := by exact_mod_cast h
    nlinarith
  · norm_num

theorem pct_den_zero (a : Nat) : pct a 0 = 0 := by
  unfold pct
  norm_num

theorem pct2_nonneg (a b : Nat) : 0 ≤ pct2 a b := by
  unfold pct2
  split
  · exact round2_nonneg (by positivity)
  · exact le_refl 0

theorem pct2_le_100 {a b : Nat} (h : a ≤ b) : pct2 a b ≤ 100 := by
  unfold pct2
  split
  · rename_i hb
    have hb' : (0 : ℚ) < (b : ℚ) := by exact_mod_cast hb
    apply round2_le_100
    rw [div_mul_eq_mul_div, div_le_iff₀ hb']
    have : (a : ℚ) ≤ (b : ℚ) := by exact_mod_cast h
    nlinarith
  · norm_num

theorem pct2_den_zero (a : Nat) : pct2 a 0 = 0 := by
  unfold pct2
  norm_num

theorem pct_ratioOk {a b : Nat} (h : a ≤ b) : ratioOk (pct a b) :=
  ⟨pct_nonneg a b, pct_le_100 h⟩

theorem pct2_ratioOk {a b : Nat} (h : a ≤ b) : ratioOk (pct2 a b) :=
  ⟨pct2_nonneg a b, pct2_le_100 h⟩

theorem round2_pct_ratioOk {a b : Nat} (h : a ≤ b) : ratioOk (round2 (pct a b)) :=
  ⟨round2_nonneg (pct_nonneg a b), round2_le_100 (pct_le_100 h)⟩

theorem foldCollect_go_mem (key : α → String) (cond : α → Bool) (l : List α) :
    ∀ (acc : List String) (s : String),
      s ∈ l.foldl (fun acc x => if cond x && !acc.contains (key x) then acc ++ [key x] else acc) acc ↔
        s ∈ acc ∨ ∃ x ∈ l, cond x = true ∧ key x = s := by
  induction l with
  | nil => intro acc s; simp
  | cons x xs ih =>
    intro acc s
    simp only [List.foldl_cons]
    rw [ih]
    by_cases hc : (cond x && !acc.contains (key x)) = true
    · simp only [hc, if_pos]
      simp only [Bool.and_eq_true, Bool.not_eq_true'] at hc
      constructor
      · rintro (hs | hs)
        · rw [List.mem_append] at hs
          rcases hs with hs | hs
          · exact Or.inl hs
          · simp at hs
            exact Or.inr ⟨x, List.mem_cons_self x xs, hc.1, hs.symm⟩
        · rcases hs with ⟨y, hy, hcy, hky⟩
          exact Or.inr ⟨y, List.mem_cons_of_mem x hy, hcy, hky⟩
      · rintro (hs | hs)
        · exact Or.inl (List.mem_append_left _ hs)
        · rcases hs with ⟨y, hy, hcy, hky⟩
          rcases List.mem_cons.mp hy with rfl | hy
          · exact Or.inl (List.mem_append_right _ (by simp [hky]))
          · exact Or.inr ⟨y, hy, hcy, hky⟩
    · simp only [hc, if_neg, Bool.not_eq_true]
      constructor
      · rintro (hs | hs)
        · exact Or.inl hs
        · rcases hs with ⟨y, hy, hcy, hky⟩
          exact Or.inr ⟨y, List.mem_cons_of_mem x hy, hcy, hky⟩
      · rintro (hs | hs)
        · exact Or.inl hs
        · rcases hs with ⟨y, hy, hcy, hky⟩
          rcases List.mem_cons.mp hy with rfl | hy
          · left
            have : ¬ (cond y && !acc.contains (key y)) = true := hc
            simp only [Bool.and_eq_true, Bool.not_eq_true', Bool.not_eq_true] at this
            rcases Decidable.not_and_iff_or_not.mp this with h1 | h1
            · exact absurd hcy (by simpa using h1)
            · have : acc.contains (key y) = true := by
                revert h1
                cases acc.contains (key y) <;> simp
              rw [hky] at this
              exact List.elem_iff.mp this
          · exact Or.inr ⟨y, hy, hcy, hky⟩

theorem mem_foldCollect (key : α → String) (cond : α → Bool) (l : List α) (s : String) :
    s ∈ foldCollect key cond l ↔ ∃ x ∈ l, cond x = true ∧ key x = s := by
  unfold foldCollect
  rw [foldCollect_go_mem]
  simp

theorem foldCollect_go_nodup (key : α → String) (cond : α → Bool) (l : List α) :
    ∀ (acc : List String), acc.Nodup →
      (l.foldl (fun acc x => if cond x && !acc.contains (key x) then acc ++ [key x] else acc) acc).Nodup := by
  induction l with
  | nil => intro acc h; simpa using h
  | cons x xs ih =>
    intro acc h
    simp only [List.foldl_cons]
    apply ih
    by_cases hc : (cond x && !acc.contains (key x)) = true
    · rw [if_pos hc]
      have hnm : key x ∉ acc := by
        rw [Bool.and_eq_true] at hc
        simpa using hc.2
      simp [List.nodup_append, h, hnm]
    · rw [if_neg hc]
      exact h

theorem nodup_foldCollect (key : α → String) (cond : α → Bool) (l : List α) :
    (foldCollect key cond l).Nodup :=
  foldCollect_go_nodup key cond l [] List.nodup_nil

theorem mem_firstSeenDedup (l : List String) (s : String) :
    s ∈ firstSeenDedup l ↔ s ∈ l := by
  unfold firstSeenDedup
  rw [mem_foldCollect]
  constructor
  · rintro ⟨x, hx, _, rfl⟩; exact hx
  · intro h; exact ⟨s, h, rfl, rfl⟩

theorem nodup_firstSeenDedup (l : List String) : (firstSeenDedup l).Nodup :=
  nodup_foldCollect _ _ l

theorem countP_or_disjoint (p q : α → Bool) (l : List α)
    (h : ∀ a ∈ l, ¬(p a = true ∧ q a = true)) :
    l.countP (fun a => p a || q a) = l.countP p + l.countP q := by
  induction l with
  | nil => simp
  | cons x xs ih =>
    simp only [List.countP_cons]
    rw [ih (fun a ha => h a (List.mem_cons_of_mem x ha))]
    have hx := h x (List.mem_cons_self x xs)
    cases hp : p x <;> cases hq : q x <;> simp_all <;> omega

theorem countP_or_le (p q : α → Bool) (l : List α) :
    l.countP (fun a => p a || q a) ≤ l.countP p + l.countP q := by
  induction l with
  | nil => simp
  | cons x xs ih =>
    simp only [List.countP_cons]
    cases hp : p x <;> cases hq : q x <;> simp_all <;> omega

theorem countP_eq_sum_map (p : α → Bool) (l : List α) :
    l.countP p = (l.map (fun x => if p x then 1 else 0)).sum := by
  induction l with
  | nil => simp
  | cons x xs ih =>
    simp only [List.countP_cons, List.map_cons, List.sum_cons, ih]
    omega

theorem sum_countP_keys (keys : List String) (l : List α) (key : α → String)
    (hnd : keys.Nodup) (hcov : ∀ x ∈ l, key x ∈ keys) :
    (keys.map (fun c => l.countP (fun x => key x == c))).sum = l.length := by
  have main : ∀ (ks : List String), ks.Nodup →
      (ks.map (fun c => l.countP (fun x => key x == c))).sum =
        l.countP (fun x => ks.contains (key x)) := by
    intro ks hks
    induction ks with
    | nil => simp [List.countP_false]
    | cons c cs ih =>
      rw [List.nodup_cons] at hks
      simp only [List.map_cons, List.sum_cons]
      rw [ih hks.2]
      have : l.countP (fun x => (c :: cs).contains (key x)) =
          l.countP (fun x => (key x == c) || cs.contains (key x)) := by
        apply List.countP_congr
        intro x _
        simp [List.contains_cons]
      rw [this, countP_or_disjoint]
      intro a _
      rintro ⟨h1, h2⟩
      have : key a = c := by simpa using h1
      rw [this] at h2
      exact hks.1 (List.elem_iff.mp h2)
  rw [main keys hnd]
  calc l.countP (fun x => keys.contains (key x))
      = l.countP (fun _ => true) := by
        apply List.countP_congr
        intro x hx
        simpa using List.elem_iff.mpr (hcov x hx)
    _ = l.length := congrFun List.countP_true l

theorem sum_countP_exchange (keys : List String) (l : List α) (f : String → α → Bool) :
    (keys.map (fun c => l.countP (f c))).sum =
      (l.map (fun x => keys.countP (fun c => f c x))).sum := by
  induction keys with
  | nil => simp [List.countP_nil]
  | cons c cs ih =>
    simp only [List.map_cons, List.sum_cons, ih]
    have : (l.map (fun x => (c :: cs).countP (fun d => f d x))).sum =
        (l.map (fun x => cs.countP (fun d => f d x) + if f c x then 1 else 0)).sum := by
      congr 1
      apply List.map_congr_left
      intro x _
      simp [List.countP_cons]
    rw [this]
    have := List.sum_map_add (l := l) (f := fun x => cs.countP (fun d => f d x))
      (g := fun x => if f c x then 1 else 0)
    rw [this, countP_eq_sum_map]
    omega

theorem sum_ge_countP_any (keys : List String) (l : List α) (f : String → α → Bool) :
    l.countP (fun x => keys.any (fun c => f c x)) ≤
      (keys.map (fun c => l.countP (f c))).sum := by
  induction keys with
  | nil => simp [List.countP_false]
  | cons c cs ih =>
    simp only [List.map_cons, List.sum_cons]
    have h1 : l.countP (fun x => (c :: cs).any (fun d => f d x)) =
        l.countP (fun x => f c x || cs.any (fun d => f d x)) := by
      apply List.countP_congr
      intro x _
      simp
    rw [h1]
    calc l.countP (fun x => f c x || cs.any (fun d => f d x))
        ≤ l.countP (f c) + l.countP (fun x => cs.any (fun d => f d x)) :=
          countP_or_le _ _ _
      _ ≤ l.countP (f c) + (cs.map (fun d => l.countP (f d))).sum := by omega

theorem countP_and_le (p q r : α → Bool) (l : List α)
    (hp : ∀ a ∈ l, p a = true → r a = true) (hq : ∀ a ∈ l, q a = true → r a = true)
    (hpq : ∀ a ∈ l, ¬(p a = true ∧ q a = true)) :
    l.countP p + l.countP q ≤ l.countP r := by
  rw [← countP_or_disjoint p q l hpq]
  apply List.countP_mono_left
  intro a ha hor
  rw [Bool.or_eq_true] at hor
  rcases hor with h | h
  · exact hp a ha h
  · exact hq a ha h

theorem sum_eq_length_iff_all_one (L : List Nat) (h : ∀ i ∈ L, 1 ≤ i) :
    L.sum = L.length ↔ ∀ i ∈ L, i = 1 := by
  induction L with
  | nil => simp
  | cons n ns ih =>
    simp only [List.sum_cons, List.length_cons]
    have hn := h n (List.mem_cons_self n ns)
    have hns := fun i hi => h i (List.mem_cons_of_mem n hi)
    have hlen : ns.length ≤ ns.sum := List.length_le_sum_of_one_le ns hns
    constructor
    · intro heq
      have hn1 : n = 1 := by omega
      have : ns.sum = ns.length := by omega
      intro i hi
      rcases List.mem_cons.mp hi with rfl | hi
      · exact hn1
      · exact (ih hns).mp this i hi
    · intro hall
      have hn1 : n = 1 := hall n (List.mem_cons_self n ns)
      have : ns.sum = ns.length := (ih hns).mpr (fun i hi => hall i (List.mem_cons_of_mem n hi))
      omega

theorem processJourney_attempts (j : Journey) :
    (processJourney j).attempts = positionedAttempts j := by
  unfold processJourney
  cases hfind : (positionedAttempts j).find? (fun a => isApproving a.status) <;> simp [hfind]

theorem processJourney_pspsInvolved (j : Journey) :
    (processJourney j).pspsInvolved =
      firstSeenDedup ((positionedAttempts j).map (fun a => a.pspName)) := by
  unfold processJourney
  cases hfind : (positionedAttempts j).find? (fun a => isApproving a.status) <;> simp [hfind]

theorem processJourney_finalStatus (j : Journey) :
    (processJourney j).finalStatus =
      (if (positionedAttempts j).any (fun a => isApproving a.status) then "success"
       else "failed") := by
  unfold processJourney
  cases hfind : (positionedAttempts j).find? (fun a => isApproving a.status) with
  | none =>
    have : (positionedAttempts j).any (fun a => isApproving a.status) = false := by
      rw [List.any_eq_false]
      intro a ha
      have := List.find?_eq_none.mp hfind a ha
      simpa using this
    simp [hfind, this]
  | some a =>
    have hp := List.find?_some hfind
    have hm := List.mem_of_find?_eq_some hfind
    have : (positionedAttempts j).any (fun a => isApproving a.status) = true :=
      List.any_eq_true.mpr ⟨a, hm, hp⟩
    simp [hfind, this]

theorem processJourney_length (j : Journey) :
    (processJourney j).attempts.length = j.attempts.length := by
  rw [processJourney_attempts]
  unfold positionedAttempts
  rw [List.length_map, List.enum_length]
  split
  · exact List.length_insertionSort _ _
  · rfl

theorem processJourney_status_iff (j : Journey) :
    ((processJourney j).finalStatus = "success" ↔
        (processJourney j).attempts.any (fun a => isApproving a.status) = true) ∧
      ((processJourney j).finalStatus = "success" ∨
        (processJourney j).finalStatus = "failed") := by
  rw [processJourney_finalStatus, processJourney_attempts]
  cases h : (positionedAttempts j).any (fun a => isApproving a.status) <;> simp [h]

theorem mem_journeyArray (now : JSDate) (txs : List Transaction) (j : Journey) :
    j ∈ journeyArray now txs ↔ ∃ kj ∈ groupJourneys now txs, j = processJourney kj.2 := by
  unfold journeyArray improvedJourneys
  simp only [List.map_map, List.mem_map]
  constructor
  · rintro ⟨kj, hkj, rfl⟩
    exact ⟨kj, hkj, rfl⟩
  · rintro ⟨kj, hkj, rfl⟩
    exact ⟨kj, hkj, rfl⟩

theorem addToJourneys_ne_nil (oid : String) (fresh : Journey) (att : Attempt) :
    ∀ (m : List (String × Journey)), (∀ kj ∈ m, kj.2.attempts ≠ []) →
      ∀ kj ∈ addToJourneys m oid fresh att, kj.2.attempts ≠ [] := by
  intro m
  induction m with
  | nil =>
    intro _ kj hkj
    simp only [addToJourneys, List.mem_singleton] at hkj
    subst hkj
    simp
  | cons hd tl ih =>
    rcases hd with ⟨k, jj⟩
    intro h kj hkj
    simp only [addToJourneys] at hkj
    by_cases hk : k = oid
    · rw [if_pos hk] at hkj
      rcases List.mem_cons.mp hkj with rfl | hkj
      · simp
      · exact h kj (List.mem_cons_of_mem _ hkj)
    · rw [if_neg hk] at hkj
      rcases List.mem_cons.mp hkj with rfl | hkj
      · exact h (k, jj) (List.mem_cons_self _ _)
      · exact ih (fun x hx => h x (List.mem_cons_of_mem _ hx)) kj hkj

theorem groupJourneys_ne_nil (now : JSDate) (txs : List Transaction) :
    ∀ kj ∈ groupJourneys now txs, kj.2.attempts ≠ [] := by
  unfold groupJourneys
  suffices h : ∀ (m : List (String × Journey)), (∀ kj ∈ m, kj.2.attempts ≠ []) →
      ∀ kj ∈ txs.foldl
        (fun m tx => addToJourneys m (orderKey tx) (newJourney now tx (orderKey tx)) (txAttempt now tx)) m,
        kj.2.attempts ≠ [] by
    exact h [] (by simp)
  induction txs with
  | nil => intro m hm kj hkj; exact hm kj hkj
  | cons tx rest ih =>
    intro m hm kj hkj
    simp only [List.foldl_cons] at hkj
    exact ih _ (addToJourneys_ne_nil _ _ _ m hm) kj hkj

theorem journeyArray_attempts_ne_nil (now : JSDate) (txs : List Transaction) :
    ∀ j ∈ journeyArray now txs, j.attempts ≠ [] := by
  intro j hj
  rcases (mem_journeyArray now txs j).mp hj with ⟨kj, hkj, rfl⟩
  have h1 := groupJourneys_ne_nil now txs kj hkj
  have h2 := processJourney_length kj.2
  intro hnil
  rw [hnil] at h2
  simp at h2
  exact h1 (List.length_eq_zero.mp h2.symm)

theorem journey_contains_iff (now : JSDate) (txs : List Transaction) (j : Journey)
    (hj : j ∈ journeyArray now txs) (P : String) :
    j.pspsInvolved.contains P = journeyInvolves j P := by
  rcases (mem_journeyArray now txs j).mp hj with ⟨kj, _, rfl⟩
  rw [Bool.eq_iff_iff]
  rw [List.elem_iff]
  unfold journeyInvolves
  rw [processJourney_pspsInvolved, processJourney_attempts, mem_firstSeenDedup, List.any_eq_true]
  simp only [List.mem_map, beq_iff_eq]

theorem journey_pspsInvolved_nodup (now : JSDate) (txs : List Transaction) (j : Journey)
    (hj : j ∈ journeyArray now txs) : j.pspsInvolved.Nodup := by
  rcases (mem_journeyArray now txs j).mp hj with ⟨kj, _, rfl⟩
  rw [processJourney_pspsInvolved]
  exact nodup_firstSeenDedup _

theorem journey_pspsInvolved_ne_nil (now : JSDate) (txs : List Transaction) (j : Journey)
    (hj : j ∈ journeyArray now txs) : j.pspsInvolved ≠ [] := by
  have hne := journeyArray_attempts_ne_nil now txs j hj
  rcases (mem_journeyArray now txs j).mp hj with ⟨kj, hkj, rfl⟩
  rw [processJourney_pspsInvolved]
  rw [processJourney_attempts] at hne
  rcases List.exists_mem_of_ne_nil _ hne with ⟨a, ha⟩
  intro hnil
  have : a.pspName ∈ firstSeenDedup ((positionedAttempts kj.2).map (fun a => a.pspName)) := by
    rw [mem_firstSeenDedup]
    exact List.mem_map_of_mem _ ha
  rw [hnil] at this
  simp at this

theorem mem_pspKeys_of_attempt (js : List Journey) (j : Journey) (a : Attempt)
    (hj : j ∈ js) (ha : a ∈ j.attempts) : a.pspName ∈ pspKeys js := by
  unfold pspKeys
  rw [mem_firstSeenDedup, List.mem_flatten]
  exact ⟨j.attempts.map (fun a => a.pspName), List.mem_map_of_mem _ hj, List.mem_map_of_mem _ ha⟩

theorem aProcessJourney_status_iff (j : AJourney) :
    ((aProcessJourney j).finalStatus = "success" ↔
        (aProcessJourney j).attempts.any (fun a => isApproving a.status) = true) ∧
      ((aProcessJourney j).finalStatus = "success" ∨
        (aProcessJourney j).finalStatus = "failed") := by
  have ha : (aProcessJourney j).attempts = aSortedAttempts j := rfl
  have hs : (aProcessJourney j).finalStatus =
      (if (aSortedAttempts j).any (fun a => isApproving a.status) then "success"
       else "failed") := rfl
  rw [ha, hs]
  cases h : (aSortedAttempts j).any (fun a => isApproving a.status) <;> simp [h]

theorem tProcessJourney_status_iff (j : TJourney) :
    ((tProcessJourney j).finalStatus = "success" ↔
        (tProcessJourney j).attempts.any (fun a => isApproving a.status) = true) ∧
      ((tProcessJourney j).finalStatus = "success" ∨
        (tProcessJourney j).finalStatus = "failed") := by
  have ha : (tProcessJourney j).attempts = tSortedAttempts j := rfl
  have hs : (tProcessJourney j).finalStatus =
      (if (tSortedAttempts j).any (fun a => isApproving a.status) then "success"
       else "failed") := rfl
  rw [ha, hs]
  cases h : (tSortedAttempts j).any (fun a => isApproving a.status) <;> simp [h]

theorem countP_and_not_split (c q : α → Bool) (l : List α) :
    l.countP (fun x => c x && q x) + l.countP (fun x => c x && !q x) = l.countP c := by
  induction l with
  | nil => simp
  | cons x xs ih =>
    simp only [List.countP_cons]
    cases hc : c x <;> cases hq : q x <;> simp_all <;> omega

/-- C1: in the result of improvedAnalyzeData, each journey J contributes
exactly one unit for each PSP P in J.pspsInvolved: to uniqueApproved of P
iff some attempt by P within J has an approving status, otherwise to
uniqueDeclined of P, never both and never neither; hence their sum over a
PSP equals the number of journeys whose pspsInvolved contains P. -/
theorem C1_unique_counting_conservation (now : JSDate) (txs : List Transaction) (P : String) :
    ((improvedAnalyzeData now txs).pspStats P).uniqueApproved =
        (journeyArray now txs).countP
          (fun j => j.pspsInvolved.contains P &&
            j.attempts.any (fun a => a.pspName == P && isApproving a.status)) ∧
      ((improvedAnalyzeData now txs).pspStats P).uniqueDeclined =
        (journeyArray now txs).countP
          (fun j => j.pspsInvolved.contains P &&
            !j.attempts.any (fun a => a.pspName == P && isApproving a.status)) ∧
      ((improvedAnalyzeData now txs).pspStats P).uniqueApproved +
          ((improvedAnalyzeData now txs).pspStats P).uniqueDeclined =
        (journeyArray now txs).countP (fun j => j.pspsInvolved.contains P) := by
  have hUA : ((improvedAnalyzeData now txs).pspStats P).uniqueApproved =
      (journeyArray now txs).countP (fun j => journeyInvolves j P && pspApprovedJourney j P) := rfl
  have hUD : ((improvedAnalyzeData now txs).pspStats P).uniqueDeclined =
      (journeyArray now txs).countP (fun j => journeyInvolves j P && !pspApprovedJourney j P) := rfl
  refine ⟨?_, ?_, ?_⟩
  · rw [hUA]
    apply List.countP_congr
    intro j hj
    rw [journey_contains_iff now txs j hj P]
    exact Iff.rfl
  · rw [hUD]
    apply List.countP_congr
    intro j hj
    rw [journey_contains_iff now txs j hj P]
    exact Iff.rfl
  · rw [hUA, hUD, countP_and_not_split (fun j => journeyInvolves j P) (fun j => pspApprovedJourney j P)]
    apply List.countP_congr
    intro j hj
    rw [journey_contains_iff now txs j hj P]

/-- C2: recalculating with an empty exclusion list returns the four
baseline transaction-level aggregate fields unchanged. -/
theorem C2_exclusion_idempotence (r : ImprovedAnalysisResults) :
    (recalculateWithPSPExclusions r []).totalApprovedTransactions =
        r.transactionLevelMetrics.totalApprovedTransactions ∧
      (recalculateWithPSPExclusions r []).totalUniqueDeclinedTransactions =
        r.transactionLevelMetrics.totalUniqueDeclinedTransactions ∧
      (recalculateWithPSPExclusions r []).totalProcessedTransactions =
        r.transactionLevelMetrics.totalProcessedTransactions ∧
      (recalculateWithPSPExclusions r []).weightedSuccessRate =
        r.transactionLevelMetrics.weightedSuccessRate :=
  ⟨rfl, rfl, rfl, rfl⟩

/-- C4: in both improvedAnalyzeData and analyzeData, a journey has
finalStatus success iff some attempt status contains an approving
substring (case-insensitive), and finalStatus failed otherwise. -/
theorem C4_final_status (now : JSDate) (txs : List Transaction) :
    (∀ j ∈ journeyArray now txs,
        (j.finalStatus = "success" ↔ ∃ a ∈ j.attempts, isApproving a.status = true) ∧
          (j.finalStatus = "success" ∨ j.finalStatus = "failed")) ∧
      (∀ j ∈ aJourneys txs,
        (j.finalStatus = "success" ↔ ∃ a ∈ j.attempts, isApproving a.status = true) ∧
          (j.finalStatus = "success" ∨ j.finalStatus = "failed")) := by
  constructor
  · intro j hj
    rcases (mem_journeyArray now txs j).mp hj with ⟨kj, _, rfl⟩
    have h := processJourney_status_iff kj.2
    refine ⟨?_, h.2⟩
    rw [h.1, List.any_eq_true]
  · intro j hj
    rcases List.mem_map.mp hj with ⟨kj, _, rfl⟩
    have h := aProcessJourney_status_iff kj.2
    refine ⟨?_, h.2⟩
    rw [h.1, List.any_eq_true]

/-- C9: per PSP, approvedAttempts + declinedAttempts never exceeds
totalAttempts, and the inequality is strict for a status (such as
in_process) matching neither the approving nor the declining substrings. -/
theorem C9_attempt_counters_no_partition :
    (∀ (now : JSDate) (txs : List Transaction) (P : String),
        ((improvedAnalyzeData now txs).pspStats P).approvedAttempts +
            ((improvedAnalyzeData now txs).pspStats P).declinedAttempts ≤
          ((improvedAnalyzeData now txs).pspStats P).totalAttempts) ∧
      ((improvedAnalyzeData exDate exInProcessTxs).pspStats "A").approvedAttempts +
          ((improvedAnalyzeData exDate exInProcessTxs).pspStats "A").declinedAttempts <
        ((improvedAnalyzeData exDate exInProcessTxs).pspStats "A").totalAttempts := by
  constructor
  · intro now txs P
    show (allAttempts (journeyArray now txs)).countP
          (fun a => a.pspName == P && isApproving a.status) +
        (allAttempts (journeyArray now txs)).countP
          (fun a => a.pspName == P && !isApproving a.status && isDeclining a.status) ≤
      (allAttempts (journeyArray now txs)).countP (fun a => a.pspName == P)
    apply countP_and_le
    · intro a _ h
      rw [Bool.and_eq_true] at h
      exact h.1
    · intro a _ h
      rw [Bool.and_eq_true, Bool.and_eq_true] at h
      exact h.1.1
    · intro a _ ⟨h1, h2⟩
      rw [Bool.and_eq_true] at h1
      rw [Bool.and_eq_true, Bool.and_eq_true] at h2
      rw [h1.2] at h2
      simp at h2
  · decide

/-- C6: the sum over all PSPs of uniqueApproved is at least the number of
successful journeys. -/
theorem C6_no_double_counting (now : JSDate) (txs : List Transaction) :
    (journeyArray now txs).countP (fun j => j.finalStatus == "success") ≤
      ((improvedAnalyzeData now txs).pspNames.map
        (fun P => ((improvedAnalyzeData now txs).pspStats P).uniqueApproved)).sum := by
  have step1 : (journeyArray now txs).countP (fun j => j.finalStatus == "success") ≤
      (journeyArray now txs).countP
        (fun j => (pspKeys (journeyArray now txs)).any
          (fun P => journeyInvolves j P && pspApprovedJourney j P)) := by
    apply List.countP_mono_left
    intro j hj hs
    rcases (mem_journeyArray now txs j).mp hj with ⟨kj, hkj, hjeq⟩
    have hsucc : j.finalStatus = "success" := by simpa using hs
    have hiff := (processJourney_status_iff kj.2).1
    rw [← hjeq] at hiff
    rcases List.any_eq_true.mp (hiff.mp hsucc) with ⟨a, ha, hap⟩
    rw [List.any_eq_true]
    refine ⟨a.pspName, mem_pspKeys_of_attempt _ j a hj ha, ?_⟩
    rw [Bool.and_eq_true]
    constructor
    · unfold journeyInvolves
      rw [List.any_eq_true]
      exact ⟨a, ha, by simp⟩
    · unfold pspApprovedJourney
      rw [List.any_eq_true]
      exact ⟨a, ha, by simp [attemptApproves, hap]⟩
  calc (journeyArray now txs).countP (fun j => j.finalStatus == "success")
      ≤ (journeyArray now txs).countP
          (fun j => (pspKeys (journeyArray now txs)).any
            (fun P => journeyInvolves j P && pspApprovedJourney j P)) := step1
    _ ≤ ((pspKeys (journeyArray now txs)).map
          (fun P => (journeyArray now txs).countP
            (fun j => journeyInvolves j P && pspApprovedJourney j P))).sum :=
        sum_ge_countP_any _ _ _
    _ = ((improvedAnalyzeData now txs).pspNames.map
          (fun P => ((improvedAnalyzeData now txs).pspStats P).uniqueApproved)).sum := rfl

theorem hasNonExcluded_eq (now : JSDate) (txs : List Transaction) (E : List String)
    (j : Journey) (hj : j ∈ journeyArray now txs) :
    hasNonExcludedPSP E j = nonExcludedInvolved E j := by
  rcases (mem_journeyArray now txs j).mp hj with ⟨kj, _, rfl⟩
  unfold hasNonExcludedPSP nonExcludedInvolved
  rw [Bool.eq_iff_iff, List.any_eq_true, List.any_eq_true,
    processJourney_pspsInvolved, processJourney_attempts]
  constructor
  · rintro ⟨p, hp, hnotin⟩
    rw [mem_firstSeenDedup] at hp
    rcases List.mem_map.mp hp with ⟨a, ha, rfl⟩
    exact ⟨a, ha, hnotin⟩
  · rintro ⟨a, ha, h⟩
    refine ⟨a.pspName, ?_, h⟩
    rw [mem_firstSeenDedup]
    exact List.mem_map_of_mem _ ha

/-- With a nonempty exclusion list, the recalculated processed total
counts exactly the journeys with at least one non-excluded attempt. -/
theorem recalc_totalProcessed (now : JSDate) (txs : List Transaction) (E : List String)
    (hE : E ≠ []) :
    (recalculateWithPSPExclusions (improvedAnalyzeData now txs) E).totalProcessedTransactions =
      (journeyArray now txs).countP (nonExcludedInvolved E) := by
  unfold recalculateWithPSPExclusions
  rw [if_neg (by simpa using hE)]
  show ((journeyArray now txs).filter (hasNonExcludedPSP E)).countP (approvedByNonExcluded E) +
      ((journeyArray now txs).filter (hasNonExcludedPSP E)).countP
        (fun j => !approvedByNonExcluded E j && nonExcludedInvolved E j) =
    (journeyArray now txs).countP (nonExcludedInvolved E)
  rw [List.countP_filter, List.countP_filter]
  have happ : ∀ j ∈ journeyArray now txs,
      approvedByNonExcluded E j = true → nonExcludedInvolved E j = true := by
    intro j _ h
    rcases List.any_eq_true.mp h with ⟨a, ha, hcond⟩
    rw [Bool.and_eq_true] at hcond
    exact List.any_eq_true.mpr ⟨a, ha, hcond.1⟩
  have h1 : ((journeyArray now txs).countP
        (fun j => approvedByNonExcluded E j && hasNonExcludedPSP E j)) =
      ((journeyArray now txs).countP
        (fun j => nonExcludedInvolved E j && approvedByNonExcluded E j)) := by
    apply List.countP_congr
    intro j hj
    rw [hasNonExcluded_eq now txs E j hj]
    cases ha : approvedByNonExcluded E j
    · simp
    · have := happ j hj ha
      simp [this]
  have h2 : ((journeyArray now txs).countP
        (fun j => (!approvedByNonExcluded E j && nonExcludedInvolved E j) &&
          hasNonExcludedPSP E j)) =
      ((journeyArray now txs).countP
        (fun j => nonExcludedInvolved E j && !approvedByNonExcluded E j)) := by
    apply List.countP_congr
    intro j hj
    rw [hasNonExcluded_eq now txs E j hj]
    cases ha : approvedByNonExcluded E j <;> cases hn : nonExcludedInvolved E j <;> simp
  rw [h1, h2]
  exact countP_and_not_split (nonExcludedInvolved E) (approvedByNonExcluded E) _

/-- The baseline transaction-level processed total counts every journey
exactly once (summed over the country partition). -/
theorem transactionLevel_totalProcessed (now : JSDate) (txs : List Transaction) :
    (improvedAnalyzeData now txs).transactionLevelMetrics.totalProcessedTransactions =
      (journeyArray now txs).length := by
  show ((countryKeys (journeyArray now txs)).map
      (fun c => (mkCountryBreakdown (journeyArray now txs) c).totalApprovedTransactions)).sum +
    ((countryKeys (journeyArray now txs)).map
      (fun c => (mkCountryBreakdown (journeyArray now txs) c).totalUniqueDeclinedTransactions)).sum =
    (journeyArray now txs).length
  rw [← List.sum_map_add]
  have hpt : ∀ c, (mkCountryBreakdown (journeyArray now txs) c).totalApprovedTransactions +
      (mkCountryBreakdown (journeyArray now txs) c).totalUniqueDeclinedTransactions =
      (journeyArray now txs).countP (fun j => j.country == c) := by
    intro c
    show ((journeyArray now txs).filter (fun j => j.country == c)).countP
        (fun j => j.finalStatus == "success") +
      ((journeyArray now txs).filter (fun j => j.country == c)).countP
        (fun j => j.finalStatus == "failed") =
      (journeyArray now txs).countP (fun j => j.country == c)
    rw [List.countP_filter, List.countP_filter]
    have hcongr1 : (journeyArray now txs).countP
        (fun j => (j.finalStatus == "success") && (j.country == c)) =
        (journeyArray now txs).countP
        (fun j => (j.country == c) && (j.finalStatus == "success")) := by
      apply List.countP_congr
      intro j _
      rw [Bool.and_comm]
    have hcongr2 : (journeyArray now txs).countP
        (fun j => (j.finalStatus == "failed") && (j.country == c)) =
        (journeyArray now txs).countP
        (fun j => (j.country == c) && !(j.finalStatus == "success")) := by
      apply List.countP_congr
      intro j hj
      rcases (mem_journeyArray now txs j).mp hj with ⟨kj, _, rfl⟩
      rcases (processJourney_status_iff kj.2).2 with hst | hst <;>
        rw [hst] <;> simp
    rw [hcongr1, hcongr2]
    exact countP_and_not_split (fun (j : Journey) => j.country == c)
      (fun (j : Journey) => j.finalStatus == "success") _
  calc ((countryKeys (journeyArray now txs)).map
        (fun c => (mkCountryBreakdown (journeyArray now txs) c).totalApprovedTransactions +
          (mkCountryBreakdown (journeyArray now txs) c).totalUniqueDeclinedTransactions)).sum
      = ((countryKeys (journeyArray now txs)).map
          (fun c => (journeyArray now txs).countP (fun j => j.country == c))).sum := by
        congr 1
        exact List.map_congr_left (fun c _ => hpt c)
    _ = (journeyArray now txs).length := by
        apply sum_countP_keys
        · exact nodup_firstSeenDedup _
        · intro j hj
          unfold countryKeys
          rw [mem_firstSeenDedup]
          exact List.mem_map_of_mem _ hj

/-- C3: excluding an additional PSP never increases the recalculated
totalProcessedTransactions, and any nonempty exclusion yields a processed
total at most the baseline one. -/
theorem C3_exclusion_monotonicity (now : JSDate) (txs : List Transaction)
    (E : List String) (p : String) :
    (recalculateWithPSPExclusions (improvedAnalyzeData now txs) (p :: E)).totalProcessedTransactions ≤
        (recalculateWithPSPExclusions (improvedAnalyzeData now txs) E).totalProcessedTransactions ∧
      (E ≠ [] →
        (recalculateWithPSPExclusions (improvedAnalyzeData now txs) E).totalProcessedTransactions ≤
          (improvedAnalyzeData now txs).transactionLevelMetrics.totalProcessedTransactions) := by
  have hmono : ∀ (E' : List String) (q : String),
      (journeyArray now txs).countP (nonExcludedInvolved (q :: E')) ≤
        (journeyArray now txs).countP (nonExcludedInvolved E') := by
    intro E' q
    apply List.countP_mono_left
    intro j _ h
    rcases List.any_eq_true.mp h with ⟨a, ha, hcond⟩
    apply List.any_eq_true.mpr
    refine ⟨a, ha, ?_⟩
    simp only [Bool.not_eq_true'] at hcond ⊢
    rcases hc : E'.contains a.pspName with _ | _
    · rfl
    · rw [List.contains_cons, hc] at hcond
      simp at hcond
  constructor
  · rcases hE : E with _ | ⟨e, E'⟩
    · rw [recalc_totalProcessed now txs [p] (by simp)]
      have h0 : (recalculateWithPSPExclusions (improvedAnalyzeData now txs) []).totalProcessedTransactions =
          (improvedAnalyzeData now txs).transactionLevelMetrics.totalProcessedTransactions := rfl
      rw [h0, transactionLevel_totalProcessed]
      exact List.countP_le_length _
    · rw [recalc_totalProcessed now txs (p :: e :: E') (by simp),
        recalc_totalProcessed now txs (e :: E') (by simp)]
      exact hmono (e :: E') p
  · intro hE
    rw [recalc_totalProcessed now txs E hE, transactionLevel_totalProcessed]
    exact List.countP_le_length _

/-- Witness for C3 at the worked example with exclusion list [B]. -/
theorem C3_exclusion_monotonicity_witness :
    (recalculateWithPSPExclusions (improvedAnalyzeData exDate exTxs) ["B"]).totalProcessedTransactions ≤
      (improvedAnalyzeData exDate exTxs).transactionLevelMetrics.totalProcessedTransactions :=
  (C3_exclusion_monotonicity exDate exTxs ["B"] "A").2 (by decide)

/-- Counting the pspStats keys involved in one built journey gives the
size of its pspsInvolved set. -/
theorem keys_countP_eq_len (now : JSDate) (txs : List Transaction) (j : Journey)
    (hj : j ∈ journeyArray now txs) :
    (pspKeys (journeyArray now txs)).countP (fun P => journeyInvolves j P) =
      j.pspsInvolved.length := by
  classical
  rw [List.countP_eq_length_filter]
  have hnd1 : ((pspKeys (journeyArray now txs)).filter (fun P => journeyInvolves j P)).Nodup :=
    (nodup_firstSeenDedup _).filter _
  have hnd2 : j.pspsInvolved.Nodup := journey_pspsInvolved_nodup now txs j hj
  have hmem : ∀ x, (x ∈ (pspKeys (journeyArray now txs)).filter (fun P => journeyInvolves j P)) ↔
      x ∈ j.pspsInvolved := by
    intro x
    rw [List.mem_filter]
    have hc : (x ∈ j.pspsInvolved) ↔ journeyInvolves j x = true := by
      rw [← journey_contains_iff now txs j hj x, List.elem_iff]
    constructor
    · rintro ⟨_, hinv⟩
      exact hc.mpr hinv
    · intro hx
      have hinv := hc.mp hx
      refine ⟨?_, hinv⟩
      rcases List.any_eq_true.mp hinv with ⟨a, ha, hax⟩
      have : a.pspName = x := by simpa using hax
      rw [← this]
      exact mem_pspKeys_of_attempt _ j a hj ha
  have e1 : ((pspKeys (journeyArray now txs)).filter (fun P => journeyInvolves j P)).toFinset =
      j.pspsInvolved.toFinset := by
    apply Finset.ext
    intro x
    rw [List.mem_toFinset, List.mem_toFinset]
    exact hmem x
  have c1 := List.toFinset_card_of_nodup hnd1
  have c2 := List.toFinset_card_of_nodup hnd2
  rw [← c1, ← c2, e1]

/-- C10: the psp-level processed total is the sum over journeys of the
number of distinct PSPs involved, the transaction-level processed total is
the number of journeys, the former dominates the latter, with equality
exactly when every journey involves a single PSP. -/
theorem C10_two_processed_totals (now : JSDate) (txs : List Transaction) :
    (improvedAnalyzeData now txs).pspLevelMetrics.totalProcessedTransactions =
        ((journeyArray now txs).map (fun j => j.pspsInvolved.length)).sum ∧
      (improvedAnalyzeData now txs).transactionLevelMetrics.totalProcessedTransactions =
        (journeyArray now txs).length ∧
      (improvedAnalyzeData now txs).transactionLevelMetrics.totalProcessedTransactions ≤
        (improvedAnalyzeData now txs).pspLevelMetrics.totalProcessedTransactions ∧
      ((improvedAnalyzeData now txs).pspLevelMetrics.totalProcessedTransactions =
          (improvedAnalyzeData now txs).transactionLevelMetrics.totalProcessedTransactions ↔
        ∀ j ∈ journeyArray now txs, j.pspsInvolved.length = 1) := by
  have h1 : (improvedAnalyzeData now txs).pspLevelMetrics.totalProcessedTransactions =
      ((journeyArray now txs).map (fun j => j.pspsInvolved.length)).sum := by
    show ((pspKeys (journeyArray now txs)).map
        (fun P => (mkPSPStats (journeyArray now txs) P).uniqueApproved)).sum +
      ((pspKeys (journeyArray now txs)).map
        (fun P => (mkPSPStats (journeyArray now txs) P).uniqueDeclined)).sum =
      ((journeyArray now txs).map (fun j => j.pspsInvolved.length)).sum
    rw [← List.sum_map_add]
    calc ((pspKeys (journeyArray now txs)).map
          (fun P => (mkPSPStats (journeyArray now txs) P).uniqueApproved +
            (mkPSPStats (journeyArray now txs) P).uniqueDeclined)).sum
        = ((pspKeys (journeyArray now txs)).map
            (fun P => (journeyArray now txs).countP (fun j => journeyInvolves j P))).sum := by
          congr 1
          apply List.map_congr_left
          intro P _
          exact countP_and_not_split (fun j => journeyInvolves j P)
            (fun j => pspApprovedJourney j P) _
      _ = ((journeyArray now txs).map
            (fun j => (pspKeys (journeyArray now txs)).countP
              (fun P => journeyInvolves j P))).sum :=
          sum_countP_exchange _ _ _
      _ = ((journeyArray now txs).map (fun j => j.pspsInvolved.length)).sum := by
          congr 1
          apply List.map_congr_left
          intro j hj
          exact keys_countP_eq_len now txs j hj
  have h2 := transactionLevel_totalProcessed now txs
  have hone : ∀ i ∈ (journeyArray now txs).map (fun j => j.pspsInvolved.length), 1 ≤ i := by
    intro i hi
    rcases List.mem_map.mp hi with ⟨j, hj, rfl⟩
    exact List.length_pos.mpr (journey_pspsInvolved_ne_nil now txs j hj)
  have h3 : (journeyArray now txs).length ≤
      ((journeyArray now txs).map (fun j => j.pspsInvolved.length)).sum := by
    have := List.length_le_sum_of_one_le _ hone
    rwa [List.length_map] at this
  refine ⟨h1, h2, ?_, ?_⟩
  · rw [h1, h2]
    exact h3
  · rw [h1, h2]
    have := sum_eq_length_iff_all_one ((journeyArray now txs).map (fun j => j.pspsInvolved.length)) hone
    rw [List.length_map] at this
    rw [this]
    constructor
    · intro hall j hj
      exact hall _ (List.mem_map_of_mem _ hj)
    · intro hall i hi
      rcases List.mem_map.mp hi with ⟨j, hj, rfl⟩
      exact hall j hj

/-- Witness for C10 at the worked example. -/
theorem C10_two_processed_totals_witness :
    (improvedAnalyzeData exDate exTxs).pspLevelMetrics.totalProcessedTransactions =
      (improvedAnalyzeData exDate exTxs).transactionLevelMetrics.totalProcessedTransactions + 1 := by
  have h := C10_two_processed_totals exDate exTxs
  rw [h.1, h.2.1]
  decide

theorem mem_daily_sub (txs : List Transaction) :
    ∀ e ∈ (analyzeTimeData txs).daily, e ∈ tDailyEntries txs := by
  intro e he
  unfold analyzeTimeData at he
  split at he
  · simp at he
  · exact he

theorem mem_weekly_sub (txs : List Transaction) :
    ∀ e ∈ (analyzeTimeData txs).weekly, e ∈ tWeeklyEntries txs := by
  intro e he
  unfold analyzeTimeData at he
  split at he
  · simp at he
  · exact he

theorem mem_monthly_sub (txs : List Transaction) :
    ∀ e ∈ (analyzeTimeData txs).monthly, e ∈ tMonthlyEntries txs := by
  intro e he
  unfold analyzeTimeData at he
  split at he
  · simp at he
  · exact he

/-- Bounds and the zero-denominator value for one weekly or monthly
bucket entry. -/
theorem periodEntry_rate_ok (js : List TJourney) :
    ratioOk (calculateUniqueMetrics js).approvalRate ∧
      ((calculateUniqueMetrics js).total = 0 → (calculateUniqueMetrics js).approvalRate = 0) := by
  constructor
  · exact round2_pct_ratioOk (Nat.le_add_right _ _)
  · intro h
    have h' : js.countP (fun j => j.finalStatus == "success") +
        js.countP (fun j => j.finalStatus == "failed") = 0 := h
    show round2 (pct (js.countP (fun j => j.finalStatus == "success"))
      (js.countP (fun j => j.finalStatus == "success") +
        js.countP (fun j => j.finalStatus == "failed"))) = 0
    rw [h', pct_den_zero, round2_zero]

/-- C5: every ratio computed by the analyzers lies in [0, 100] and is
exactly 0 whenever its denominator is 0: the per-PSP rates, the aggregate
weighted rates and country rates of improvedAnalyzeData, the recalculated
rate under any exclusion list, the rounded ratios of analyzeData, and the
approval rates of every time bucket of analyzeTimeData. -/
theorem C5_ratio_bounds (now : JSDate) (txs : List Transaction) :
    (∀ P, ratioOk (((improvedAnalyzeData now txs).pspStats P).individualApprovalRate) ∧
        (((improvedAnalyzeData now txs).pspStats P).totalAttempts = 0 →
          ((improvedAnalyzeData now txs).pspStats P).individualApprovalRate = 0)) ∧
    (∀ P, ratioOk (((improvedAnalyzeData now txs).pspStats P).trueApprovalRate) ∧
        (((improvedAnalyzeData now txs).pspStats P).uniqueApproved +
            ((improvedAnalyzeData now txs).pspStats P).uniqueDeclined = 0 →
          ((improvedAnalyzeData now txs).pspStats P).trueApprovalRate = 0)) ∧
    (ratioOk (improvedAnalyzeData now txs).pspLevelMetrics.weightedSuccessRate ∧
      ((improvedAnalyzeData now txs).pspLevelMetrics.totalProcessedTransactions = 0 →
        (improvedAnalyzeData now txs).pspLevelMetrics.weightedSuccessRate = 0)) ∧
    (∀ c, ratioOk (((improvedAnalyzeData now txs).countryBreakdown c).successRate) ∧
        (((improvedAnalyzeData now txs).countryBreakdown c).totalProcessedTransactions = 0 →
          ((improvedAnalyzeData now txs).countryBreakdown c).successRate = 0)) ∧
    (∀ c P, ratioOk ((((improvedAnalyzeData now txs).countryBreakdown c).pspBreakdown P).successRate) ∧
        ((((improvedAnalyzeData now txs).countryBreakdown c).pspBreakdown P).totalTransactions = 0 →
          (((improvedAnalyzeData now txs).countryBreakdown c).pspBreakdown P).successRate = 0)) ∧
    (ratioOk (improvedAnalyzeData now txs).transactionLevelMetrics.weightedSuccessRate ∧
      ((improvedAnalyzeData now txs).transactionLevelMetrics.totalProcessedTransactions = 0 →
        (improvedAnalyzeData now txs).transactionLevelMetrics.weightedSuccessRate = 0)) ∧
    (∀ E, ratioOk (recalculateWithPSPExclusions (improvedAnalyzeData now txs) E).weightedSuccessRate ∧
        ((recalculateWithPSPExclusions (improvedAnalyzeData now txs) E).totalProcessedTransactions = 0 →
          (recalculateWithPSPExclusions (improvedAnalyzeData now txs) E).weightedSuccessRate = 0)) ∧
    (∀ P, ratioOk (((analyzeData txs).pspAnalysis P).approvalRatio) ∧
        (((analyzeData txs).pspAnalysis P).approved + ((analyzeData txs).pspAnalysis P).declined = 0 →
          ((analyzeData txs).pspAnalysis P).approvalRatio = 0)) ∧
    (∀ c, ratioOk (((analyzeData txs).countryAnalysis c).approvalRatio) ∧
        (((analyzeData txs).countryAnalysis c).approved +
            ((analyzeData txs).countryAnalysis c).declined = 0 →
          ((analyzeData txs).countryAnalysis c).approvalRatio = 0)) ∧
    (∀ c P, ratioOk ((((analyzeData txs).countryAnalysis c).pspBreakdown P).approvalRatio) ∧
        ((((analyzeData txs).countryAnalysis c).pspBreakdown P).approved +
            (((analyzeData txs).countryAnalysis c).pspBreakdown P).declined = 0 →
          (((analyzeData txs).countryAnalysis c).pspBreakdown P).approvalRatio = 0)) ∧
    ratioOk ((analyzeData txs).overallApprovalRate) ∧
    (∀ e ∈ (analyzeTimeData txs).daily,
        (ratioOk e.approvalRate ∧ (e.total = 0 → e.approvalRate = 0)) ∧
          ∀ P, ratioOk ((e.pspBreakdown P).approvalRatio) ∧
            ((e.pspBreakdown P).total = 0 → (e.pspBreakdown P).approvalRatio = 0)) ∧
    (∀ e ∈ (analyzeTimeData txs).weekly,
        ratioOk e.approvalRate ∧ (e.total = 0 → e.approvalRate = 0)) ∧
    (∀ e ∈ (analyzeTimeData txs).monthly,
        ratioOk e.approvalRate ∧ (e.total = 0 → e.approvalRate = 0)) := by
  refine ⟨?_, ?_, ?_, ?_, ?_, ?_, ?_, ?_, ?_, ?_, ?_, ?_, ?_, ?_⟩
  · intro P
    constructor
    · apply pct_ratioOk
      show (allAttempts (journeyArray now txs)).countP
          (fun a => a.pspName == P && isApproving a.status) ≤
        (allAttempts (journeyArray now txs)).countP (fun a => a.pspName == P)
      apply List.countP_mono_left
      intro a _ h
      rw [Bool.and_eq_true] at h
      exact h.1
    · intro h
      show pct ((improvedAnalyzeData now txs).pspStats P).approvedAttempts
        ((improvedAnalyzeData now txs).pspStats P).totalAttempts = 0
      rw [h]
      exact pct_den_zero _
  · intro P
    constructor
    · exact pct_ratioOk (Nat.le_add_right _ _)
    · intro h
      show pct ((improvedAnalyzeData now txs).pspStats P).uniqueApproved
        (((improvedAnalyzeData now txs).pspStats P).uniqueApproved +
          ((improvedAnalyzeData now txs).pspStats P).uniqueDeclined) = 0
      rw [h]
      exact pct_den_zero _
  · constructor
    · exact pct_ratioOk (Nat.le_add_right _ _)
    · intro h
      show pct (improvedAnalyzeData now txs).pspLevelMetrics.totalApprovedTransactions
        (improvedAnalyzeData now txs).pspLevelMetrics.totalProcessedTransactions = 0
      rw [h]
      exact pct_den_zero _
  · intro c
    constructor
    · exact pct_ratioOk (Nat.le_add_right _ _)
    · intro h
      show pct ((improvedAnalyzeData now txs).countryBreakdown c).totalApprovedTransactions
        ((improvedAnalyzeData now txs).countryBreakdown c).totalProcessedTransactions = 0
      rw [h]
      exact pct_den_zero _
  · intro c P
    constructor
    · exact pct_ratioOk (Nat.le_add_right _ _)
    · intro h
      show pct (((improvedAnalyzeData now txs).countryBreakdown c).pspBreakdown P).approvedTransactions
        (((improvedAnalyzeData now txs).countryBreakdown c).pspBreakdown P).totalTransactions = 0
      rw [h]
      exact pct_den_zero _
  · constructor
    · exact pct_ratioOk (Nat.le_add_right _ _)
    · intro h
      show pct (improvedAnalyzeData now txs).transactionLevelMetrics.totalApprovedTransactions
        (improvedAnalyzeData now txs).transactionLevelMetrics.totalProcessedTransactions = 0
      rw [h]
      exact pct_den_zero _
  · intro E
    rcases E with _ | ⟨e, E'⟩
    · constructor
      · exact pct_ratioOk (Nat.le_add_right _ _)
      · intro h
        show pct (improvedAnalyzeData now txs).transactionLevelMetrics.totalApprovedTransactions
          (improvedAnalyzeData now txs).transactionLevelMetrics.totalProcessedTransactions = 0
        rw [show (improvedAnalyzeData now txs).transactionLevelMetrics.totalProcessedTransactions = 0
          from h]
        exact pct_den_zero _
    · constructor
      · exact pct_ratioOk (Nat.le_add_right _ _)
      · intro h
        show pct (recalculateWithPSPExclusions (improvedAnalyzeData now txs) (e :: E')).totalApprovedTransactions
          (recalculateWithPSPExclusions (improvedAnalyzeData now txs) (e :: E')).totalProcessedTransactions = 0
        rw [h]
        exact pct_den_zero _
  · intro P
    constructor
    · exact pct2_ratioOk (Nat.le_add_right _ _)
    · intro h
      show pct2 ((analyzeData txs).pspAnalysis P).approved
        (((analyzeData txs).pspAnalysis P).approved + ((analyzeData txs).pspAnalysis P).declined) = 0
      rw [h]
      exact pct2_den_zero _
  · intro c
    constructor
    · exact pct2_ratioOk (Nat.le_add_right _ _)
    · intro h
      show pct2 ((analyzeData txs).countryAnalysis c).approved
        (((analyzeData txs).countryAnalysis c).approved +
          ((analyzeData txs).countryAnalysis c).declined) = 0
      rw [h]
      exact pct2_den_zero _
  · intro c P
    constructor
    · exact pct2_ratioOk (Nat.le_add_right _ _)
    · intro h
      show pct2 (((analyzeData txs).countryAnalysis c).pspBreakdown P).approved
        ((((analyzeData txs).countryAnalysis c).pspBreakdown P).approved +
          (((analyzeData txs).countryAnalysis c).pspBreakdown P).declined) = 0
      rw [h]
      exact pct2_den_zero _
  · exact pct2_ratioOk (Nat.le_add_right _ _)
  · intro e he
    have he' := mem_daily_sub txs e he
    rcases List.mem_map.mp he' with ⟨k, _, rfl⟩
    constructor
    · exact periodEntry_rate_ok _
    · intro P
      constructor
      · exact round2_pct_ratioOk (Nat.le_add_right _ _)
      · intro h
        have h' : (((tJourneys txs).filter (fun j => dayKey j.date == k)).filter
              (fun j => j.pspsInvolved.contains P)).countP
              (fun j => j.attempts.any (fun a => a.pspName == P && isApproving a.status)) +
            (((tJourneys txs).filter (fun j => dayKey j.date == k)).filter
              (fun j => j.pspsInvolved.contains P)).countP
              (fun j => !j.attempts.any (fun a => a.pspName == P && isApproving a.status)) = 0 := h
        show round2 (pct _ _) = 0
        rw [h', pct_den_zero, round2_zero]
  · intro e he
    have he' := mem_weekly_sub txs e he
    rcases List.mem_map.mp he' with ⟨k, _, rfl⟩
    exact periodEntry_rate_ok _
  · intro e he
    have he' := mem_monthly_sub txs e he
    rcases List.mem_map.mp he' with ⟨k, _, rfl⟩
    exact periodEntry_rate_ok _

/-- Witness for C5: a zero-denominator rate evaluates to 0 on the empty
input, and two concrete rates are within bounds. -/
theorem C5_ratio_bounds_witness :
    ((improvedAnalyzeData exDate ([] : List Transaction)).pspStats "A").individualApprovalRate = 0 ∧
      ratioOk (((analyzeData exTxs).pspAnalysis "A").approvalRatio) ∧
      ratioOk ((recalculateWithPSPExclusions (improvedAnalyzeData exDate exTxs) ["B"]).weightedSuccessRate) := by
  obtain ⟨-, -, -, -, -, -, h7, h8, -⟩ := C5_ratio_bounds exDate exTxs
  exact ⟨((C5_ratio_bounds exDate []).1 "A").2 rfl, (h8 "A").1, (h7 ["B"]).1⟩

/-- C7 counterexample input: for order 1 of exPendingTxs the journey is
successful with two PSPs involved and A owns a non-approving (pending)
attempt, so the claim demands an emitted flow with A in declinedBy, yet
analyzeData emits no cross-PSP flow because "pending" matches none of the
declining substrings. -/
theorem C7_counterexample :
    (aJourneys exPendingTxs).map (fun j => (j.finalStatus, j.pspsInvolved)) =
        [("success", ["A", "B"])] ∧
      (aJourneys exPendingTxs).map
          (fun j => j.attempts.map (fun a => (a.pspName, isApproving a.status, isDeclining a.status))) =
        [[("A", false, false), ("B", true, false)]] ∧
      (analyzeData exPendingTxs).crossPSPFlows = [] := by
  refine ⟨?_, ?_, ?_⟩ <;> decide

/-- C7 (amended): for each successful journey with at least two distinct
PSPs, the flow (when emitted) names the PSP of the first approving attempt
as approvedBy, and declinedBy collects exactly the other PSPs owning an
attempt whose status matches a declining substring ("declined", "fail" or
"error"), each at most once; no flow is emitted when that set is empty. -/
theorem C7_cross_psp_flow (txs : List Transaction) :
    ∀ j ∈ aJourneys txs, j.finalStatus = "success" → 1 < j.pspsInvolved.length →
      ∃ ap, j.attempts.find? (fun a => isApproving a.status) = some ap ∧
        ((∃ a ∈ j.attempts, a.pspName ≠ ap.pspName ∧ isDeclining a.status = true) →
          ∃ f, journeyFlow j = some f ∧ f ∈ (analyzeData txs).crossPSPFlows ∧
            f.approvedBy = ap.pspName ∧ f.declinedBy.Nodup ∧
            (∀ P, P ∈ f.declinedBy ↔
              P ≠ ap.pspName ∧ ∃ a ∈ j.attempts, a.pspName = P ∧ isDeclining a.status = true)) ∧
        ((¬ ∃ a ∈ j.attempts, a.pspName ≠ ap.pspName ∧ isDeclining a.status = true) →
          journeyFlow j = none) := by
  intro j hj hs hl
  have hany : j.attempts.any (fun a => isApproving a.status) = true := by
    rcases List.mem_map.mp hj with ⟨kj, _, rfl⟩
    exact (aProcessJourney_status_iff kj.2).1.mp hs
  cases hfind : j.attempts.find? (fun a => isApproving a.status) with
  | none =>
    exfalso
    rcases List.any_eq_true.mp hany with ⟨a, ha, hap⟩
    have := List.find?_eq_none.mp hfind a ha
    exact this hap
  | some ap =>
    have hcond : (decide (1 < j.pspsInvolved.length) && (j.finalStatus == "success")) = true := by
      rw [Bool.and_eq_true]
      exact ⟨decide_eq_true hl, by simp [hs]⟩
    have hflow : journeyFlow j =
        (if 0 < (foldCollect (fun a => a.pspName)
              (fun a => a.pspName != ap.pspName && isDeclining a.status) j.attempts).length then
          some { merchantOrderId := j.merchantOrderId, approvedBy := ap.pspName,
                 declinedBy := foldCollect (fun a => a.pspName)
                   (fun a => a.pspName != ap.pspName && isDeclining a.status) j.attempts,
                 country := j.country, amount := ap.amount, currency := ap.currency }
         else none) := by
      unfold journeyFlow
      rw [if_pos hcond, hfind]
    have hDiff : 0 < (foldCollect (fun a => a.pspName)
          (fun a => a.pspName != ap.pspName && isDeclining a.status) j.attempts).length ↔
        ∃ a ∈ j.attempts, a.pspName ≠ ap.pspName ∧ isDeclining a.status = true := by
      rw [List.length_pos]
      constructor
      · intro hne
        rcases List.exists_mem_of_ne_nil _ hne with ⟨P, hP⟩
        rcases (mem_foldCollect _ _ _ _).mp hP with ⟨a, ha, hc, _⟩
        rw [Bool.and_eq_true, bne_iff_ne] at hc
        exact ⟨a, ha, hc.1, hc.2⟩
      · rintro ⟨a, ha, hne, hdecl⟩ hnil
        have : a.pspName ∈ foldCollect (fun a => a.pspName)
            (fun a => a.pspName != ap.pspName && isDeclining a.status) j.attempts := by
          rw [mem_foldCollect]
          exact ⟨a, ha, by rw [Bool.and_eq_true, bne_iff_ne]; exact ⟨hne, hdecl⟩, rfl⟩
        rw [hnil] at this
        simp at this
    refine ⟨ap, rfl, ?_, ?_⟩
    · intro hex
      have hD := hDiff.mpr hex
      refine ⟨_, by rw [hflow, if_pos hD], ?_, rfl, nodup_foldCollect _ _ _, ?_⟩
      · show _ ∈ (aJourneys txs).filterMap journeyFlow
        apply List.mem_filterMap.mpr
        exact ⟨j, hj, by rw [hflow, if_pos hD]⟩
      · intro P
        show P ∈ foldCollect (fun a => a.pspName)
            (fun a => a.pspName != ap.pspName && isDeclining a.status) j.attempts ↔ _
        rw [mem_foldCollect]
        constructor
        · rintro ⟨a, ha, hc, rfl⟩
          rw [Bool.and_eq_true, bne_iff_ne] at hc
          exact ⟨hc.1, a, ha, rfl, hc.2⟩
        · rintro ⟨hPne, a, ha, rfl, hdecl⟩
          exact ⟨a, ha, by rw [Bool.and_eq_true, bne_iff_ne]; exact ⟨hPne, hdecl⟩, rfl⟩
    · intro hnex
      rw [hflow, if_neg (fun h => hnex (hDiff.mp h))]

/-- Witness for C7 at the worked example: the flow for order 1 is approved
by B with A among the declining PSPs. -/
theorem C7_cross_psp_flow_witness :
    ∃ f, f ∈ (analyzeData exTxs).crossPSPFlows ∧ f.approvedBy = "B" ∧ "A" ∈ f.declinedBy := by
  obtain ⟨ap, hap, hpos, -⟩ :=
    C7_cross_psp_flow exTxs exAJourney (by decide) (by decide) (by decide)
  have hap' : exAJourney.attempts.find? (fun a => isApproving a.status) = some exAttemptB := by
    decide
  rw [hap'] at hap
  injection hap with hap
  subst hap
  obtain ⟨f, -, hmemf, happ, -, hiff⟩ :=
    hpos ⟨exAttemptA, by decide, by decide, by decide⟩
  exact ⟨f, hmemf, happ, (hiff "A").mpr ⟨by decide, exAttemptA, by decide, rfl, by decide⟩⟩

/-- C8 counterexample: on January 1, 2022 (a Saturday) the code labels the
week "2022-W01" while the claim formula with the standard 1-based ordinal
day of the year yields week 2. -/
theorem C8_counterexample :
    getISOWeek { year := 2022, month := 1, day := 1, msOfDay := 0 } = "2022-W01" ∧
      specWeekKey { year := 2022, month := 1, day := 1, msOfDay := 0 } = "2022-W02" ∧
      getISOWeek { year := 2022, month := 1, day := 1, msOfDay := 0 } ≠
        specWeekKey { year := 2022, month := 1, day := 1, msOfDay := 0 } := by
  refine ⟨?_, ?_, ?_⟩ <;> decide

/-- C8 (amended): the weekly bucket key of analyzeTimeData is
getISOWeek of the journey date, and for any date within a day it equals
"YYYY-Www" with ww = ceil((dayOfYear0 + Jan1Weekday + 1) / 7), where
dayOfYear0 is the number of whole days elapsed since January 1 (0-based)
rather than the 1-based ordinal day of the year. -/
theorem C8_weekly_key (txs : List Transaction) (d : JSDate) (hms : d.msOfDay < 86400000) :
    getISOWeek d = amendedWeekKey d ∧
      ∀ e ∈ (analyzeTimeData txs).weekly, ∃ j ∈ tJourneys txs, e.period = getISOWeek j.date := by
  constructor
  · have hz : dayOfYear0 { year := d.year, month := 1, day := 1, msOfDay := 0 } = 0 := by
      unfold dayOfYear0 daysBeforeMonth
      cases isLeapYear d.year <;> rfl
    have hsub : JSDate.getTime d -
        JSDate.getTime { year := d.year, month := 1, day := 1, msOfDay := 0 } =
        dayOfYear0 d * 86400000 + d.msOfDay := by
      unfold JSDate.getTime
      dsimp only
      rw [hz]
      omega
    have hdays : (JSDate.getTime d -
        JSDate.getTime { year := d.year, month := 1, day := 1, msOfDay := 0 }) / 86400000 =
        dayOfYear0 d := by
      rw [hsub, Nat.mul_comm, Nat.mul_add_div (by norm_num), Nat.div_eq_of_lt hms,
        Nat.add_zero]
    show (let year := d.year
          let start : JSDate := { year := year, month := 1, day := 1, msOfDay := 0 }
          let days := (d.getTime - start.getTime) / 86400000
          let week := (days + start.getDay + 1 + 6) / 7
          let yearStr := toString year
          let ww := pad2 week
          s!"{yearStr}-W{ww}") = amendedWeekKey d
    simp only []
    rw [hdays]
    unfold amendedWeekKey jan1Weekday ceilDiv7
    rfl
  · intro e he
    have he' := mem_weekly_sub txs e he
    rcases List.mem_map.mp he' with ⟨k, hk, rfl⟩
    rw [mem_firstSeenDedup] at hk
    rcases List.mem_map.mp hk with ⟨j, hj, rfl⟩
    exact ⟨j, hj, rfl⟩

/-- Witness for C8 at a concrete afternoon date. -/
theorem C8_weekly_key_witness :
    getISOWeek { year := 2024, month := 3, day := 5, msOfDay := 7200000 } =
      amendedWeekKey { year := 2024, month := 3, day := 5, msOfDay := 7200000 } :=
  (C8_weekly_key exDatedTxs { year := 2024, month := 3, day := 5, msOfDay := 7200000 }
    (by norm_num)).1

/-- Witness for C4 at a concrete journey of the worked example. -/
theorem C4_final_status_witness : exJourney2.finalStatus = "success" := by
  have h := (C4_final_status exDate exTxs).1 exJourney2 (by decide)
  exact h.1.mpr ⟨exAttempt2, by decide, by decide⟩

end Dashboard

